import Mathlib

/-!
# gcp-nuke: `gcp/compute_instance_groups_region.go`

A shallow embedding of the `ComputeInstanceGroupsRegion` resource plugin
(`List`, `ToSlice`, `Remove`) and the properties of its list / delete / poll
cycle.

Modelling conventions.

* Go `int` is the 64-bit two's-complement integer of the targets the tool is
  built for; `seconds += PollTime` is `wrapInt (seconds + PollTime)`.
* `sync.Map` is a finite map with unique keys (`AList`); `Store` is `insert`,
  `Delete` is `erase`, `Range` visits every entry once.
* The Google API client (`compute.Service`) is an oracle: a record of
  response functions.  The status stream of an operation is indexed by the
  number of earlier `Get` calls of the polling goroutine.
* The polling loop need not terminate, so it is run with a bound `fuel` on
  the number of status fetches; the outcome `polling` means that the
  goroutine has performed `fuel` fetches and is about to perform another.
* `errgroup` records the error of the first goroutine that returns one.  The
  order in which goroutines return is a parameter (`order`) of `Remove`.
* `log.Printf` and `time.Sleep` have no effect on the values computed and are
  left out; `log.Fatal` is the `Except.error` result of `List`.
-/

namespace GcpNuke

/-! ## Go values -/

/-- Go `int` arithmetic on a 64-bit target: the two's-complement wrap-around
of an exact integer result. -/
def wrapInt (x : Int) : Int := (x + 2 ^ 63) % 2 ^ 64 - 2 ^ 63

/-- A Go `error` value: one returned by the API client (given by its text), or
one built by `fmt.Errorf`.  The two kinds are never equal: `fmt.Errorf`
allocates a fresh value. -/
inductive GoError
  | api (text : String)
  | errorf (text : String)
  deriving DecidableEq, Repr

/-- The `Error()` method: the text of an error. -/
def GoError.Error : GoError → String
  | .api text => text
  | .errorf text => text

/-- A Go `[]string`. -/
abbrev StringSlice := List String

/-- The text `sub` occurs in the text `s` (as a contiguous run of characters). -/
def textContains (s sub : String) : Prop := List.IsInfix sub.data s.data

instance (s sub : String) : Decidable (textContains s sub) := by
  unfold textContains; infer_instance

/-! ## Configuration and cache -/

/-- The fields of `config.Config` that the plugin reads (the declaration is in
package `config`; `PollTime` and `Timeout` are Go `int`s, as their use with
the `int` variable `seconds` requires). -/
structure Config where
  Project : String
  Regions : StringSlice
  PollTime : Int
  Timeout : Int

/-- The embedded `ResourceBase`. -/
structure ResourceBase where
  config : Config

/-- The value stored per instance; only the field `region` is written and read
by this plugin. -/
structure DefaultResourceProperties where
  region : String
  deriving DecidableEq, Repr

/-- One entry of the cache: identifier and properties. -/
abbrev Entry := Sigma (fun _ : String => DefaultResourceProperties)

/-- A sequence of cache entries. -/
abbrev Entries := List Entry

/-- The `syncmap.Map` of the plugin: identifier ↦ properties, keys unique. -/
abbrev SyncMap := AList (fun _ : String => DefaultResourceProperties)

/-! ## The API client -/

/-- A call made on the API client. -/
inductive ApiCall
  | list (project region : String)
  | delete (project region name : String)
  | get (project region operation : String)
  deriving DecidableEq, Repr

/-- The three calls of `compute.Service` that the plugin makes, with their
responses.  `list` yields the `Name`s of `instanceList.Items`, `delete` the
`Name` of the operation, and `get project region operation n` the `Status`
answered to the fetch that follows `n` earlier ones.  A failing call yields
the text of its error. -/
structure ComputeService where
  list : String → String → Except String StringSlice
  delete : String → String → String → Except String String
  get : String → String → String → Nat → Except String String

/-- The plugin's state. -/
structure ComputeInstanceGroupsRegion where
  serviceClient : ComputeService
  base : ResourceBase
  resourceMap : SyncMap

/-- `Name()`. -/
def ComputeInstanceGroupsRegion.Name (_c : ComputeInstanceGroupsRegion) : String :=
  "ComputeInstanceGroupsRegion"

/-- Modelled from the spec: `helpers.SortedSyncMapKeys` (package `helpers` is
not part of the source at hand) returns the current cache contents, sorted
and deterministic: the keys of the map in ascending order of strings (the
lexicographic order of their characters, `String.le_iff_toList_le`). -/
def SortedSyncMapKeys (m : SyncMap) : StringSlice :=
  m.keys.insertionSort (fun a b => a.toList ≤ b.toList)

/-- `ToSlice()`. -/
def ComputeInstanceGroupsRegion.ToSlice (c : ComputeInstanceGroupsRegion) : StringSlice :=
  SortedSyncMapKeys c.resourceMap

/-! ## List -/

/-- The inner loop of `List`: store every listed name with the region. -/
def storeItems (region : String) (items : StringSlice) (m : SyncMap) : SyncMap :=
  items.foldl (fun acc name => acc.insert name ⟨region⟩) m

/-- The outer loop of `List` over the configured regions; a listing error is
fatal. -/
def listRegions (c : ComputeInstanceGroupsRegion) :
    StringSlice → SyncMap → List ApiCall → Except GoError (SyncMap × List ApiCall)
  | [], m, calls => .ok (m, calls)
  | region :: rest, m, calls =>
    match c.serviceClient.list c.base.config.Project region with
    | .error e => .error (.api e)
    | .ok items =>
      listRegions c rest (storeItems region items m)
        (calls ++ [ApiCall.list c.base.config.Project region])

/-- What `List` yields: the returned slice, the plugin afterwards, and the API
calls made. -/
structure ListResult where
  slice : StringSlice
  c : ComputeInstanceGroupsRegion
  calls : List ApiCall

/-- `List(refreshCache)`; `Except.error` is `log.Fatal`. -/
def ComputeInstanceGroupsRegion.List (c : ComputeInstanceGroupsRegion) (refreshCache : Bool) :
    Except GoError ListResult :=
  if !refreshCache then
    .ok ⟨c.ToSlice, c, []⟩
  else
    match listRegions c c.base.config.Regions ∅ [] with
    | .error e => .error e
    | .ok (m, calls) =>
      let c' : ComputeInstanceGroupsRegion := { c with resourceMap := m }
      .ok ⟨c'.ToSlice, c', calls⟩

/-! ## Remove -/

/-- The error built by `fmt.Errorf` when the deletion times out. -/
def timeoutError (c : ComputeInstanceGroupsRegion) (instanceID region : String) : GoError :=
  .errorf ("[Error] Resource deletion timed out for " ++ instanceID ++ " [type: " ++ c.Name
    ++ " project: " ++ c.base.config.Project ++ " region: " ++ region ++ "] ("
    ++ toString c.base.config.Timeout ++ " seconds)")

/-- How a goroutine (or `Remove`) stands: it has returned an error or nil, or it
is still going after the fetches it was allowed. -/
inductive Outcome
  | returned (err : Option GoError)
  | polling
  deriving DecidableEq, Repr

/-- Outcome of the polling loop together with the number of status fetches
performed. -/
structure TaskResult where
  outcome : Outcome
  fetches : Nat
  deriving DecidableEq, Repr

/-- The loop `for opStatus != "DONE" { ... }`, from the state `opStatus`,
`seconds` after `n` fetches, allowed `fuel` more fetches. -/
def pollLoop (c : ComputeInstanceGroupsRegion) (instanceID region operation : String) :
    Nat → String → Int → Nat → TaskResult
  | 0, opStatus, _, n =>
    if opStatus = "DONE" then ⟨.returned none, n⟩ else ⟨.polling, n⟩
  | fuel + 1, opStatus, seconds, n =>
    if opStatus = "DONE" then ⟨.returned none, n⟩
    else
      match c.serviceClient.get c.base.config.Project region operation n with
      | .error e => ⟨.returned (some (.api e)), n + 1⟩
      | .ok status =>
        if wrapInt (seconds + c.base.config.PollTime) > c.base.config.Timeout then
          ⟨.returned (some (timeoutError c instanceID region)), n + 1⟩
        else
          pollLoop c instanceID region operation fuel status
            (wrapInt (seconds + c.base.config.PollTime)) (n + 1)

/-- The goroutine's delete submission followed by the polling loop
(`var opStatus string`, `seconds := 0`). -/
def deleteTask (fuel : Nat) (c : ComputeInstanceGroupsRegion) (instanceID region : String) :
    TaskResult :=
  match c.serviceClient.delete c.base.config.Project region instanceID with
  | .error e => ⟨.returned (some (.api e)), 0⟩
  | .ok operation => pollLoop c instanceID region operation fuel "" 0 0

/-- The API calls of the goroutine: the delete submission, then one `Get` per
status fetch performed. -/
def deleteCalls (fuel : Nat) (c : ComputeInstanceGroupsRegion) (instanceID region : String) :
    List ApiCall :=
  ApiCall.delete c.base.config.Project region instanceID ::
    match c.serviceClient.delete c.base.config.Project region instanceID with
    | .error _ => []
    | .ok operation =>
      List.replicate (deleteTask fuel c instanceID region).fetches
        (ApiCall.get c.base.config.Project region operation)

/-- The `errgroup` and the cache while the goroutines return one after the
other: the first error recorded, whether some goroutine has not returned, the
cache, and the API calls made. -/
structure GroupState where
  err : Option GoError
  waiting : Bool
  resourceMap : SyncMap
  calls : List ApiCall

/-- The goroutines spawned by `Range`, taken in the order in which they
return.  A goroutine that returns nil has deleted its identifier from the
cache; the first non-nil error is kept (`errOnce`). -/
def runGroup (fuel : Nat) (c : ComputeInstanceGroupsRegion) : Entries → GroupState → GroupState
  | [], st => st
  | e :: rest, st =>
    runGroup fuel c rest
      { err :=
          match st.err, (deleteTask fuel c e.1 e.2.region).outcome with
          | none, .returned (some err) => some err
          | recorded, _ => recorded
        waiting := st.waiting || decide ((deleteTask fuel c e.1 e.2.region).outcome = .polling)
        resourceMap :=
          if (deleteTask fuel c e.1 e.2.region).outcome = .returned none then
            st.resourceMap.erase e.1
          else st.resourceMap
        calls := st.calls ++ deleteCalls fuel c e.1 e.2.region }

/-- What `Remove` yields: what `errs.Wait()` returned (or that it is still
waiting), the plugin afterwards, and the API calls made. -/
structure RemoveResult where
  outcome : Outcome
  c : ComputeInstanceGroupsRegion
  calls : List ApiCall

/-- `Remove()`.  `order` lists the entries visited by `Range` in the order in
which their goroutines return. -/
def ComputeInstanceGroupsRegion.Remove (fuel : Nat) (c : ComputeInstanceGroupsRegion)
    (order : Entries) : RemoveResult :=
  let st := runGroup fuel c order ⟨none, false, c.resourceMap, []⟩
  ⟨if st.waiting then .polling else .returned st.err,
    { c with resourceMap := st.resourceMap }, st.calls⟩

/-- The error, if any, that the goroutine of entry `e` hands to the `errgroup`. -/
def taskError (fuel : Nat) (c : ComputeInstanceGroupsRegion) (e : Entry) : Option GoError :=
  match (deleteTask fuel c e.1 e.2.region).outcome with
  | .returned err => err
  | .polling => none

/-- The cache after the loops of `List` over the regions `rs`, when the listing
of region `r` is `items r`. -/
def storeAll (items : String → StringSlice) (rs : StringSlice) (m : SyncMap) : SyncMap :=
  rs.foldl (fun acc r => storeItems r (items r) acc) m

/-- The call is the delete submission for the instance `name`. -/
def isDeleteOf (name : String) : ApiCall → Bool
  | .delete _ _ name' => decide (name' = name)
  | _ => false

/-! ## Properties assumed of the provider in the statements below -/

/-- The status stream of `operation` never shows `"DONE"` and never fails. -/
def NeverDone (c : ComputeInstanceGroupsRegion) (region operation : String) : Prop :=
  ∀ n, ∃ status, c.serviceClient.get c.base.config.Project region operation n = .ok status
    ∧ status ≠ "DONE"

/-! ## Concrete providers and plugins used as examples -/

/-- A provider that accepts every delete and whose operations stay `"RUNNING"`. -/
def svcRunning : ComputeService where
  list := fun _ _ => .ok []
  delete := fun _ _ name => .ok ("operation-" ++ name)
  get := fun _ _ _ _ => .ok "RUNNING"

/-- A provider that accepts every delete and reports `"DONE"` at once; region
`r1` lists `a1` and `a2`. -/
def svcDone : ComputeService where
  list := fun _ region => .ok (if region = "r1" then ["a1", "a2"] else [])
  delete := fun _ _ name => .ok ("operation-" ++ name)
  get := fun _ _ _ _ => .ok "DONE"

/-- The cache `a1 ↦ r1`. -/
def cacheA1 : SyncMap := (∅ : SyncMap).insert "a1" ⟨"r1"⟩

/-- Poll every 10 seconds, time out after 30; operations never complete. -/
def cTen : ComputeInstanceGroupsRegion := ⟨svcRunning, ⟨⟨"p", ["r1"], 10, 30⟩⟩, cacheA1⟩

/-- Poll interval 0; operations never complete. -/
def cZero : ComputeInstanceGroupsRegion := ⟨svcRunning, ⟨⟨"p", ["r1"], 0, 30⟩⟩, cacheA1⟩

/-- Poll interval `2 ^ 62` and timeout `2 ^ 63 - 1`: the second addition to
`seconds` overflows. -/
def cWrap : ComputeInstanceGroupsRegion :=
  ⟨svcRunning, ⟨⟨"p", ["r1"], 2 ^ 62, 2 ^ 63 - 1⟩⟩, cacheA1⟩

/-- Poll interval and timeout both `2 ^ 63 - 1`. -/
def cWrapMax : ComputeInstanceGroupsRegion :=
  ⟨svcRunning, ⟨⟨"p", ["r1"], 2 ^ 63 - 1, 2 ^ 63 - 1⟩⟩, cacheA1⟩

/-- Poll interval 5 above the timeout 3; operations complete at once. -/
def cQuick : ComputeInstanceGroupsRegion := ⟨svcDone, ⟨⟨"p", ["r1"], 5, 3⟩⟩, cacheA1⟩

/-- The delete of `a0` is refused; the operation of `a2` answers `"RUNNING"`
and then fails; other operations complete at once. -/
def svcFailing : ComputeService where
  list := fun _ region => .ok (if region = "r1" then ["a0", "a1", "a2"] else [])
  delete := fun _ _ name =>
    if name = "a0" then .error "permission denied" else .ok ("operation-" ++ name)
  get := fun _ _ operation n =>
    if operation = "operation-a2" then
      (if n = 0 then .ok "RUNNING" else .error "backend error")
    else .ok "DONE"

/-- The cache `a0 ↦ r1, a1 ↦ r1, a2 ↦ r1`. -/
def cacheA012 : SyncMap :=
  (((∅ : SyncMap).insert "a0" ⟨"r1"⟩).insert "a1" ⟨"r1"⟩).insert "a2" ⟨"r1"⟩

/-- Poll every second, time out after 10, on `svcFailing`. -/
def cFailing : ComputeInstanceGroupsRegion := ⟨svcFailing, ⟨⟨"p", ["r1"], 1, 10⟩⟩, cacheA012⟩

/-- The delete of `cache` is refused; the operation of `db` completes at once;
other operations stay `"RUNNING"`. -/
def svcMixed : ComputeService where
  list := fun _ region => .ok (if region = "r1" then ["web", "db", "cache"] else [])
  delete := fun _ _ name =>
    if name = "cache" then .error "permission denied" else .ok ("operation-" ++ name)
  get := fun _ _ operation _ =>
    if operation = "operation-db" then .ok "DONE" else .ok "RUNNING"

/-- The cache `web ↦ r1, db ↦ r1, cache ↦ r1`. -/
def cacheMixed : SyncMap :=
  (((∅ : SyncMap).insert "web" ⟨"r1"⟩).insert "db" ⟨"r1"⟩).insert "cache" ⟨"r1"⟩

/-- Poll every second, time out after 1, on `svcMixed`. -/
def cMixed : ComputeInstanceGroupsRegion := ⟨svcMixed, ⟨⟨"p", ["r1"], 1, 1⟩⟩, cacheMixed⟩

/-- The goroutine of `cache` returns first, then that of `db`, then that of
`web`. -/
def orderMixed : Entries := [⟨"cache", ⟨"r1"⟩⟩, ⟨"db", ⟨"r1"⟩⟩, ⟨"web", ⟨"r1"⟩⟩]

/-- The cache `web ↦ r1, db ↦ r1`. -/
def cacheTwo : SyncMap := ((∅ : SyncMap).insert "web" ⟨"r1"⟩).insert "db" ⟨"r1"⟩

/-- As `cMixed`, with only `web` and `db` cached. -/
def cTwo : ComputeInstanceGroupsRegion := ⟨svcMixed, ⟨⟨"p", ["r1"], 1, 1⟩⟩, cacheTwo⟩

/-- The listing of `svcDone`. -/
def itemsDone (region : String) : StringSlice := if region = "r1" then ["a1", "a2"] else []

/-- A plugin on `svcDone` whose cache holds the stale identifier `a0`. -/
def cStale : ComputeInstanceGroupsRegion := ⟨svcDone, ⟨⟨"p", ["r1"], 1, 10⟩⟩, cacheA012⟩

/-- The instance group `g` exists both in region `r1` and in region `r2`;
deletes are accepted and complete at once. -/
def svcDup : ComputeService where
  list := fun _ region => .ok (if region = "r1" ∨ region = "r2" then ["g"] else [])
  delete := fun _ _ name => .ok ("operation-" ++ name)
  get := fun _ _ _ _ => .ok "DONE"

/-- The listing of `svcDup`. -/
def itemsDup (region : String) : StringSlice :=
  if region = "r1" ∨ region = "r2" then ["g"] else []

/-- The provider of `svcDup` once `g` has been deleted in region `r2` (and
nowhere else). -/
def svcDupAfter : ComputeService where
  list := fun _ region => .ok (if region = "r1" then ["g"] else [])
  delete := fun _ _ name => .ok ("operation-" ++ name)
  get := fun _ _ _ _ => .ok "DONE"

/-- The listing of `svcDupAfter`. -/
def itemsDupAfter (region : String) : StringSlice := if region = "r1" then ["g"] else []

/-- Regions `r1` and `r2` configured, on `svcDup`, cache empty. -/
def cDup : ComputeInstanceGroupsRegion := ⟨svcDup, ⟨⟨"p", ["r1", "r2"], 1, 10⟩⟩, ∅⟩

/-- Region `r1` configured, on `svcDone`, cache empty. -/
def cFresh : ComputeInstanceGroupsRegion := ⟨svcDone, ⟨⟨"p", ["r1"], 1, 10⟩⟩, ∅⟩

/-- The cache `a1 ↦ r1, a2 ↦ r1` that `List(true)` builds on `svcDone`. -/
def cacheA12 : SyncMap := storeItems "r1" ["a1", "a2"] ∅

/-- The cache `g ↦ r2` that `List(true)` builds on `svcDup`. -/
def cacheDup : SyncMap := storeItems "r2" ["g"] (storeItems "r1" ["g"] ∅)

/-- The plugin `cFresh` after `List(true)`. -/
def cFreshListed : ComputeInstanceGroupsRegion := { cFresh with resourceMap := cacheA12 }

/-- The plugin `cDup` after `List(true)`. -/
def cDupListed : ComputeInstanceGroupsRegion := { cDup with resourceMap := cacheDup }

/-- A provider that lists nothing. -/
def itemsNone (_region : String) : StringSlice := []

/-- The delete of `a0` is refused; every other delete is accepted and its
operation stays `"RUNNING"`. -/
def svcHang : ComputeService where
  list := fun _ region => .ok (if region = "r1" then ["a0", "a1"] else [])
  delete := fun _ _ name =>
    if name = "a0" then .error "permission denied" else .ok ("operation-" ++ name)
  get := fun _ _ _ _ => .ok "RUNNING"

/-- The cache `a0 ↦ r1, a1 ↦ r1`. -/
def cacheA01 : SyncMap := ((∅ : SyncMap).insert "a0" ⟨"r1"⟩).insert "a1" ⟨"r1"⟩

/-- Poll interval 0 and timeout 30, on `svcHang`. -/
def cHang : ComputeInstanceGroupsRegion := ⟨svcHang, ⟨⟨"p", ["r1"], 0, 30⟩⟩, cacheA01⟩

/-! ## The polling loop -/


theorem wrapInt_of_inRange {x : Int} (h₁ : -(2 ^ 63) ≤ x) (h₂ : x < 2 ^ 63) : wrapInt x = x := by
  unfold wrapInt
  omega


theorem pollLoop_done (c : ComputeInstanceGroupsRegion)
    (instanceID region operation : String) (fuel : Nat) (seconds : Int) (n : Nat) :
    pollLoop c instanceID region operation fuel "DONE" seconds n = ⟨.returned none, n⟩ := by
  cases fuel <;> simp [pollLoop]

theorem pollLoop_zero_of_ne (c : ComputeInstanceGroupsRegion)
    (instanceID region operation : String) {opStatus : String} (h : opStatus ≠ "DONE") (seconds : Int) (n : Nat) :
    pollLoop c instanceID region operation 0 opStatus seconds n = ⟨.polling, n⟩ := by
  simp [pollLoop, h]

theorem pollLoop_succ_error (c : ComputeInstanceGroupsRegion)
    (instanceID region operation : String) {opStatus : String} (h : opStatus ≠ "DONE") (fuel : Nat)
    (seconds : Int) (n : Nat) {e : String}
    (hget : c.serviceClient.get c.base.config.Project region operation n = .error e) :
    pollLoop c instanceID region operation (fuel + 1) opStatus seconds n
      = ⟨.returned (some (.api e)), n + 1⟩ := by
  simp [pollLoop, h, hget]

theorem pollLoop_succ_timeout (c : ComputeInstanceGroupsRegion)
    (instanceID region operation : String) {opStatus status : String} (h : opStatus ≠ "DONE") (fuel : Nat)
    (seconds : Int) (n : Nat)
    (hget : c.serviceClient.get c.base.config.Project region operation n = .ok status)
    (hover : wrapInt (seconds + c.base.config.PollTime) > c.base.config.Timeout) :
    pollLoop c instanceID region operation (fuel + 1) opStatus seconds n
      = ⟨.returned (some (timeoutError c instanceID region)), n + 1⟩ := by
  simp [pollLoop, h, hget, hover]

theorem pollLoop_succ_continue (c : ComputeInstanceGroupsRegion)
    (instanceID region operation : String) {opStatus status : String} (h : opStatus ≠ "DONE") (fuel : Nat)
    (seconds : Int) (n : Nat)
    (hget : c.serviceClient.get c.base.config.Project region operation n = .ok status)
    (hin : ¬ wrapInt (seconds + c.base.config.PollTime) > c.base.config.Timeout) :
    pollLoop c instanceID region operation (fuel + 1) opStatus seconds n
      = pollLoop c instanceID region operation fuel status
          (wrapInt (seconds + c.base.config.PollTime)) (n + 1) := by
  simp [pollLoop, h, hget, hin]


theorem pollLoop_polling_of_le (c : ComputeInstanceGroupsRegion)
    (instanceID region operation : String) (hnd : NeverDone c region operation)
    (ht : 0 ≤ c.base.config.PollTime) (hT : c.base.config.Timeout < 2 ^ 63) :
    ∀ (fuel j : Nat) (opStatus : String) (seconds : Int) (n : Nat), opStatus ≠ "DONE" →
      0 ≤ seconds → seconds + j * c.base.config.PollTime ≤ c.base.config.Timeout → fuel ≤ j →
      pollLoop c instanceID region operation fuel opStatus seconds n = ⟨.polling, n + fuel⟩ := by
  intro fuel
  induction fuel with
  | zero => intro j s seconds n hs _ _ _; simp [pollLoop, hs]
  | succ fuel ih =>
    intro j s seconds n hs h0 hle hj
    obtain ⟨st, hget, hst⟩ := hnd n
    obtain ⟨j', rfl⟩ : ∃ j', j = j' + 1 := ⟨j - 1, by omega⟩
    have hjt : (0 : Int) ≤ j' * c.base.config.PollTime := mul_nonneg (by positivity) ht
    push_cast at hle
    have hw : wrapInt (seconds + c.base.config.PollTime) = seconds + c.base.config.PollTime :=
      wrapInt_of_inRange (by linarith) (by linarith)
    rw [pollLoop_succ_continue c instanceID region operation hs fuel seconds n hget
      (by rw [hw]; linarith), hw]
    rw [ih j' st _ (n + 1) hst (by linarith) (by linarith) (by omega)]
    congr 1
    omega

theorem pollLoop_timeout_of_gt (c : ComputeInstanceGroupsRegion)
    (instanceID region operation : String) (hnd : NeverDone c region operation)
    (ht : 0 ≤ c.base.config.PollTime)
    (hT : c.base.config.Timeout + c.base.config.PollTime < 2 ^ 63) :
    ∀ (j fuel : Nat) (opStatus : String) (seconds : Int) (n : Nat), opStatus ≠ "DONE" →
      0 ≤ seconds → seconds + j * c.base.config.PollTime ≤ c.base.config.Timeout →
      c.base.config.Timeout < seconds + (j + 1 : Nat) * c.base.config.PollTime → j + 1 ≤ fuel →
      pollLoop c instanceID region operation fuel opStatus seconds n
        = ⟨.returned (some (timeoutError c instanceID region)), n + (j + 1)⟩ := by
  intro j
  induction j with
  | zero =>
    intro fuel s seconds n hs h0 hle hlt hf
    obtain ⟨f, rfl⟩ : ∃ f, fuel = f + 1 := ⟨fuel - 1, by omega⟩
    obtain ⟨st, hget, _⟩ := hnd n
    push_cast at hle hlt
    have hw : wrapInt (seconds + c.base.config.PollTime) = seconds + c.base.config.PollTime :=
      wrapInt_of_inRange (by linarith) (by linarith)
    rw [pollLoop_succ_timeout c instanceID region operation hs f seconds n hget
      (by rw [hw]; linarith)]
  | succ j ih =>
    intro fuel s seconds n hs h0 hle hlt hf
    obtain ⟨f, rfl⟩ : ∃ f, fuel = f + 1 := ⟨fuel - 1, by omega⟩
    obtain ⟨st, hget, hst⟩ := hnd n
    have hjt : (0 : Int) ≤ j * c.base.config.PollTime := mul_nonneg (by positivity) ht
    push_cast at hle hlt
    have hw : wrapInt (seconds + c.base.config.PollTime) = seconds + c.base.config.PollTime :=
      wrapInt_of_inRange (by linarith) (by linarith)
    rw [pollLoop_succ_continue c instanceID region operation hs f seconds n hget
      (by rw [hw]; linarith), hw]
    rw [ih f st _ (n + 1) hst (by linarith) (by linarith) (by push_cast; linarith) (by omega)]
    congr 1
    omega

theorem pollLoop_fetches_le (c : ComputeInstanceGroupsRegion)
    (instanceID region operation : String) (ht : 1 ≤ c.base.config.PollTime)
    (hT : c.base.config.Timeout + c.base.config.PollTime < 2 ^ 63) :
    ∀ (fuel j : Nat) (opStatus : String) (seconds : Int) (n : Nat),
      0 ≤ seconds → seconds ≤ c.base.config.Timeout →
      c.base.config.Timeout < seconds + j * c.base.config.PollTime →
      (pollLoop c instanceID region operation fuel opStatus seconds n).fetches ≤ n + j
      ∧ (j ≤ fuel →
        (pollLoop c instanceID region operation fuel opStatus seconds n).outcome ≠ .polling) := by
  intro fuel
  induction fuel with
  | zero =>
    intro j s seconds n h0 hle hlt
    by_cases hs : s = "DONE"
    · subst hs; simp [pollLoop]
    · simp only [pollLoop, hs, if_false]
      refine ⟨by omega, fun hj => ?_⟩
      have : j = 0 := by omega
      subst this
      simp at hlt
      exact absurd hlt (by linarith)
  | succ fuel ih =>
    intro j s seconds n h0 hle hlt
    by_cases hs : s = "DONE"
    · subst hs; simp [pollLoop]
    · have hj : j ≠ 0 := by
        rintro rfl
        simp at hlt
        linarith
      obtain ⟨j', rfl⟩ : ∃ j', j = j' + 1 := ⟨j - 1, by omega⟩
      push_cast at hlt
      cases hget : c.serviceClient.get c.base.config.Project region operation n with
      | error e =>
        rw [pollLoop_succ_error c instanceID region operation hs fuel seconds n hget]
        exact ⟨by simp, fun _ => by simp⟩
      | ok st =>
        have hw : wrapInt (seconds + c.base.config.PollTime)
            = seconds + c.base.config.PollTime :=
          wrapInt_of_inRange (by linarith) (by linarith)
        by_cases hover : wrapInt (seconds + c.base.config.PollTime) > c.base.config.Timeout
        · rw [pollLoop_succ_timeout c instanceID region operation hs fuel seconds n hget hover]
          exact ⟨by simp, fun _ => by simp⟩
        · rw [pollLoop_succ_continue c instanceID region operation hs fuel seconds n hget hover,
            hw]
          rw [hw] at hover
          obtain ⟨h₁, h₂⟩ := ih j' st (seconds + c.base.config.PollTime) (n + 1)
            (by linarith) (by linarith) (by linarith)
          exact ⟨by omega, fun hj' => h₂ (by omega)⟩


theorem pollLoop_polling_split (c : ComputeInstanceGroupsRegion)
    (instanceID region operation : String) :
    ∀ (a : Nat) (opStatus : String) (seconds : Int) (n : Nat),
      (pollLoop c instanceID region operation a opStatus seconds n).outcome = .polling →
      ∃ status' seconds', status' ≠ "DONE" ∧ ∀ b,
        pollLoop c instanceID region operation (a + b) opStatus seconds n
          = pollLoop c instanceID region operation b status' seconds' (n + a) := by
  intro a
  induction a with
  | zero =>
    intro s seconds n h
    by_cases hs : s = "DONE"
    · subst hs; simp [pollLoop] at h
    · exact ⟨s, seconds, hs, fun b => by simp⟩
  | succ a ih =>
    intro s seconds n h
    by_cases hs : s = "DONE"
    · subst hs; simp [pollLoop] at h
    · cases hget : c.serviceClient.get c.base.config.Project region operation n with
      | error e =>
        rw [pollLoop_succ_error c instanceID region operation hs a seconds n hget] at h
        simp at h
      | ok st =>
        by_cases hover : wrapInt (seconds + c.base.config.PollTime) > c.base.config.Timeout
        · rw [pollLoop_succ_timeout c instanceID region operation hs a seconds n hget hover] at h
          simp at h
        · rw [pollLoop_succ_continue c instanceID region operation hs a seconds n hget hover] at h
          obtain ⟨s', sec', hs', hb⟩ := ih st _ (n + 1) h
          refine ⟨s', sec', hs', fun b => ?_⟩
          have e₁ : a + 1 + b = (a + b) + 1 := by omega
          have e₂ : n + (a + 1) = n + 1 + a := by omega
          rw [e₁, pollLoop_succ_continue c instanceID region operation hs (a + b) seconds n hget
            hover, hb b, e₂]

theorem deleteTask_of_delete_ok (c : ComputeInstanceGroupsRegion) (instanceID region : String)
    {operation : String} (fuel : Nat)
    (hdel : c.serviceClient.delete c.base.config.Project region instanceID = .ok operation) :
    deleteTask fuel c instanceID region = pollLoop c instanceID region operation fuel "" 0 0 := by
  simp [deleteTask, hdel]

theorem deleteTask_of_delete_error (c : ComputeInstanceGroupsRegion) (instanceID region : String)
    {e : String} (fuel : Nat)
    (hdel : c.serviceClient.delete c.base.config.Project region instanceID = .error e) :
    deleteTask fuel c instanceID region = ⟨.returned (some (.api e)), 0⟩ := by
  simp [deleteTask, hdel]

/-- The bound on fetches only cuts a run short: once the loop has returned,
allowing more fetches does not change the result. -/
theorem pollLoop_stable (c : ComputeInstanceGroupsRegion)
    (instanceID region operation : String) :
    ∀ (fuel fuel' : Nat) (opStatus : String) (seconds : Int) (n : Nat),
      (pollLoop c instanceID region operation fuel opStatus seconds n).outcome ≠ .polling →
      fuel ≤ fuel' →
      pollLoop c instanceID region operation fuel' opStatus seconds n
        = pollLoop c instanceID region operation fuel opStatus seconds n := by
  intro fuel
  induction fuel with
  | zero =>
    intro fuel' s seconds n h _
    by_cases hs : s = "DONE"
    · subst hs; rw [pollLoop_done, pollLoop_done]
    · simp [pollLoop, hs] at h
  | succ fuel ih =>
    intro fuel' s seconds n h hf
    obtain ⟨f', rfl⟩ : ∃ f', fuel' = f' + 1 := ⟨fuel' - 1, by omega⟩
    by_cases hs : s = "DONE"
    · subst hs; rw [pollLoop_done, pollLoop_done]
    · cases hget : c.serviceClient.get c.base.config.Project region operation n with
      | error e =>
        rw [pollLoop_succ_error c instanceID region operation hs f' seconds n hget,
          pollLoop_succ_error c instanceID region operation hs fuel seconds n hget]
      | ok st =>
        by_cases hover : wrapInt (seconds + c.base.config.PollTime) > c.base.config.Timeout
        · rw [pollLoop_succ_timeout c instanceID region operation hs f' seconds n hget hover,
            pollLoop_succ_timeout c instanceID region operation hs fuel seconds n hget hover]
        · rw [pollLoop_succ_continue c instanceID region operation hs fuel seconds n hget hover]
            at h ⊢
          rw [pollLoop_succ_continue c instanceID region operation hs f' seconds n hget hover]
          exact ih f' st _ (n + 1) h (by omega)

theorem deleteTask_stable (c : ComputeInstanceGroupsRegion) (instanceID region : String)
    (fuel fuel' : Nat) (h : (deleteTask fuel c instanceID region).outcome ≠ .polling)
    (hf : fuel ≤ fuel') :
    deleteTask fuel' c instanceID region = deleteTask fuel c instanceID region := by
  unfold deleteTask at h ⊢
  cases hdel : c.serviceClient.delete c.base.config.Project region instanceID with
  | error e => rfl
  | ok operation =>
    rw [hdel] at h
    exact pollLoop_stable c instanceID region operation fuel fuel' "" 0 0 h hf

/-! ## The goroutine group -/

theorem runGroup_calls (fuel : Nat) (c : ComputeInstanceGroupsRegion) :
    ∀ (es : Entries) (st : GroupState),
      (runGroup fuel c es st).calls
        = st.calls ++ es.flatMap (fun e => deleteCalls fuel c e.1 e.2.region) := by
  intro es
  induction es with
  | nil => intro st; simp [runGroup]
  | cons e rest ih => intro st; simp [runGroup, ih, List.append_assoc]

theorem runGroup_waiting (fuel : Nat) (c : ComputeInstanceGroupsRegion) :
    ∀ (es : Entries) (st : GroupState),
      (runGroup fuel c es st).waiting = true
        ↔ st.waiting = true ∨ ∃ e ∈ es, (deleteTask fuel c e.1 e.2.region).outcome = .polling := by
  intro es
  induction es with
  | nil => intro st; simp [runGroup]
  | cons e rest ih =>
    intro st
    simp only [runGroup, ih, Bool.or_eq_true, decide_eq_true_eq, List.mem_cons, exists_eq_or_imp]
    tauto

theorem runGroup_err (fuel : Nat) (c : ComputeInstanceGroupsRegion) :
    ∀ (es : Entries) (st : GroupState),
      (runGroup fuel c es st).err = st.err.or (es.findSome? (taskError fuel c)) := by
  intro es
  induction es with
  | nil => intro st; simp [runGroup]
  | cons e rest ih =>
    intro st
    rw [runGroup, ih, List.findSome?_cons]
    cases hst : st.err with
    | some x => simp
    | none =>
      simp only [taskError]
      cases hout : (deleteTask fuel c e.1 e.2.region).outcome with
      | polling => simp
      | returned err => cases err <;> simp

theorem runGroup_lookup_of_nil (fuel : Nat) (c : ComputeInstanceGroupsRegion) (k : String) :
    ∀ (es : Entries) (st : GroupState),
      (st.resourceMap.lookup k = none ∨
        ∃ e ∈ es, e.1 = k ∧ (deleteTask fuel c e.1 e.2.region).outcome = .returned none) →
      (runGroup fuel c es st).resourceMap.lookup k = none := by
  intro es
  induction es with
  | nil => intro st h; simpa [runGroup] using h
  | cons e rest ih =>
    intro st h
    rw [runGroup]
    apply ih
    by_cases hnil : (deleteTask fuel c e.1 e.2.region).outcome = .returned none
    · simp only [hnil, if_true]
      by_cases hk : k = e.1
      · left; subst hk; exact AList.lookup_erase _ _
      · rw [AList.lookup_erase_ne hk]
        rcases h with h | ⟨x, hx, hxk, hxn⟩
        · exact Or.inl h
        · rcases List.mem_cons.1 hx with rfl | hx
          · exact absurd hxk.symm hk
          · exact Or.inr ⟨x, hx, hxk, hxn⟩
    · simp only [hnil, if_false]
      rcases h with h | ⟨x, hx, hxk, hxn⟩
      · exact Or.inl h
      · rcases List.mem_cons.1 hx with rfl | hx
        · exact absurd hxn hnil
        · exact Or.inr ⟨x, hx, hxk, hxn⟩

theorem runGroup_lookup_of_not_nil (fuel : Nat) (c : ComputeInstanceGroupsRegion) (k : String) :
    ∀ (es : Entries) (st : GroupState),
      (∀ e ∈ es, e.1 = k → (deleteTask fuel c e.1 e.2.region).outcome ≠ .returned none) →
      (runGroup fuel c es st).resourceMap.lookup k = st.resourceMap.lookup k := by
  intro es
  induction es with
  | nil => intro st _; simp [runGroup]
  | cons e rest ih =>
    intro st h
    rw [runGroup, ih _ (fun x hx => h x (List.mem_cons_of_mem _ hx))]
    by_cases hnil : (deleteTask fuel c e.1 e.2.region).outcome = .returned none
    · simp only [hnil, if_true]
      have hk : k ≠ e.1 := fun hk => h e (List.mem_cons_self _ _) hk.symm hnil
      exact AList.lookup_erase_ne hk
    · simp only [hnil, if_false]

theorem entry_eq_of_lookup {m : SyncMap} {k : String} {p : DefaultResourceProperties}
    (hk : m.lookup k = some p) {e : Entry} (he : e ∈ m.entries) (hek : e.1 = k) : e = ⟨k, p⟩ := by
  obtain ⟨k', p'⟩ := e
  simp only at hek
  subst hek
  have : p' ∈ m.lookup k' := AList.mem_lookup_iff.2 he
  rw [hk] at this
  simp at this
  rw [this]

/-- Once one polling loop has timed out, every loop started from the same
elapsed time and fetch count has returned within the same number of fetches. -/
theorem pollLoop_returned_of_timeout (c : ComputeInstanceGroupsRegion)
    (idX regionX opX idZ regionZ opZ : String) :
    ∀ (fuel : Nat) (s s' : String) (seconds : Int) (n cnt : Nat) (text : String),
      pollLoop c idX regionX opX fuel s seconds n = ⟨.returned (some (.errorf text)), cnt⟩ →
      (pollLoop c idZ regionZ opZ fuel s' seconds n).outcome ≠ .polling := by
  intro fuel
  induction fuel with
  | zero =>
    intro s s' seconds n cnt text h
    by_cases hs : s = "DONE"
    · subst hs; simp [pollLoop] at h
    · simp [pollLoop, hs] at h
  | succ fuel ih =>
    intro s s' seconds n cnt text h
    by_cases hs : s = "DONE"
    · subst hs; simp [pollLoop] at h
    · by_cases hs' : s' = "DONE"
      · subst hs'; simp [pollLoop]
      · cases hget' : c.serviceClient.get c.base.config.Project regionZ opZ n with
        | error e' => rw [pollLoop_succ_error c idZ regionZ opZ hs' fuel seconds n hget']; simp
        | ok st' =>
          by_cases hover : wrapInt (seconds + c.base.config.PollTime) > c.base.config.Timeout
          · rw [pollLoop_succ_timeout c idZ regionZ opZ hs' fuel seconds n hget' hover]; simp
          · rw [pollLoop_succ_continue c idZ regionZ opZ hs' fuel seconds n hget' hover]
            cases hget : c.serviceClient.get c.base.config.Project regionX opX n with
            | error e =>
              rw [pollLoop_succ_error c idX regionX opX hs fuel seconds n hget] at h
              simp at h
            | ok st =>
              rw [pollLoop_succ_continue c idX regionX opX hs fuel seconds n hget hover] at h
              exact ih st st' _ (n + 1) cnt text h

theorem deleteTask_returned_of_timeout (fuel : Nat) (c : ComputeInstanceGroupsRegion)
    (idX regionX idZ regionZ : String) {cnt : Nat} {text : String}
    (h : deleteTask fuel c idX regionX = ⟨.returned (some (.errorf text)), cnt⟩) :
    (deleteTask fuel c idZ regionZ).outcome ≠ .polling := by
  unfold deleteTask at h ⊢
  cases hz : c.serviceClient.delete c.base.config.Project regionZ idZ with
  | error e => simp
  | ok opZ =>
    cases hx : c.serviceClient.delete c.base.config.Project regionX idX with
    | error e => rw [hx] at h; simp at h
    | ok opX =>
      rw [hx] at h
      exact pollLoop_returned_of_timeout c idX regionX opX idZ regionZ opZ fuel "" "" 0 0 cnt text h

theorem isInfix_append_right {a b : List Char} (h : List.IsInfix a b) (x : List Char) :
    List.IsInfix a (b ++ x) :=
  h.trans (List.prefix_append b x).isInfix

theorem textContains_timeoutError (c : ComputeInstanceGroupsRegion) (instanceID region : String) :
    textContains (timeoutError c instanceID region).Error instanceID := by
  unfold textContains timeoutError GoError.Error
  simp only [String.data_append]
  iterate 9 apply isInfix_append_right
  exact (List.suffix_append _ _).isInfix

/-! ## The cache built by `List` -/

theorem lookup_storeItems (region : String) (k : String) :
    ∀ (items : StringSlice) (m : SyncMap),
      (storeItems region items m).lookup k
        = if k ∈ items then some ⟨region⟩ else m.lookup k := by
  intro items
  induction items with
  | nil => intro m; simp [storeItems]
  | cons x xs ih =>
    intro m
    have hstep : storeItems region (x :: xs) m = storeItems region xs (m.insert x ⟨region⟩) := rfl
    rw [hstep, ih]
    by_cases hk : k ∈ xs
    · simp [hk]
    · by_cases hx : k = x
      · subst hx; simp [hk, AList.lookup_insert]
      · simp [hk, hx, AList.lookup_insert_ne hx]

theorem storeAll_cons (items : String → StringSlice) (r : String) (rs : StringSlice)
    (m : SyncMap) :
    storeAll items (r :: rs) m = storeAll items rs (storeItems r (items r) m) := rfl

theorem storeAll_append (items : String → StringSlice) (rs₁ rs₂ : StringSlice) (m : SyncMap) :
    storeAll items (rs₁ ++ rs₂) m = storeAll items rs₂ (storeAll items rs₁ m) := by
  simp [storeAll, List.foldl_append]

theorem lookup_storeAll_of_not_listed (items : String → StringSlice) (k : String) :
    ∀ (rs : StringSlice) (m : SyncMap), (∀ r ∈ rs, k ∉ items r) →
      (storeAll items rs m).lookup k = m.lookup k := by
  intro rs
  induction rs with
  | nil => intro m _; rfl
  | cons r rest ih =>
    intro m h
    rw [storeAll_cons, ih _ (fun r' hr' => h r' (List.mem_cons_of_mem _ hr')), lookup_storeItems]
    simp [h r (List.mem_cons_self _ _)]

theorem lookup_storeAll_last (items : String → StringSlice) (k r : String)
    (pre post : StringSlice) (m : SyncMap) (hk : k ∈ items r) (hpost : ∀ r' ∈ post, k ∉ items r') :
    (storeAll items (pre ++ r :: post) m).lookup k = some ⟨r⟩ := by
  rw [storeAll_append, storeAll_cons, lookup_storeAll_of_not_listed items k post _ hpost,
    lookup_storeItems]
  simp [hk]

theorem lookup_storeAll_some (items : String → StringSlice) (k : String) :
    ∀ (rs : StringSlice) (m : SyncMap) (p : DefaultResourceProperties),
      (storeAll items rs m).lookup k = some p →
      (p.region ∈ rs ∧ k ∈ items p.region) ∨ m.lookup k = some p := by
  intro rs
  induction rs with
  | nil => intro m p h; exact Or.inr h
  | cons r rest ih =>
    intro m p h
    rw [storeAll_cons] at h
    rcases ih _ p h with ⟨h₁, h₂⟩ | h'
    · exact Or.inl ⟨List.mem_cons_of_mem _ h₁, h₂⟩
    · rw [lookup_storeItems] at h'
      by_cases hk : k ∈ items r
      · simp only [hk, if_true, Option.some.injEq] at h'
        subst h'
        exact Or.inl ⟨List.mem_cons_self _ _, hk⟩
      · simp only [hk, if_false] at h'
        exact Or.inr h'

theorem mem_storeAll (items : String → StringSlice) (k : String) :
    ∀ (rs : StringSlice) (m : SyncMap),
      k ∈ storeAll items rs m ↔ k ∈ m ∨ ∃ r ∈ rs, k ∈ items r := by
  intro rs
  induction rs with
  | nil => intro m; simp [storeAll]
  | cons r rest ih =>
    intro m
    rw [storeAll_cons, ih]
    have : k ∈ storeItems r (items r) m ↔ k ∈ items r ∨ k ∈ m := by
      rw [← AList.lookup_isSome, lookup_storeItems]
      by_cases hk : k ∈ items r
      · simp [hk]
      · simp [hk, AList.lookup_isSome]
    rw [this]
    simp only [List.mem_cons, exists_eq_or_imp]
    tauto

theorem listRegions_ok (c : ComputeInstanceGroupsRegion) (items : String → StringSlice) :
    ∀ (rs : StringSlice) (m : SyncMap) (calls : List ApiCall),
      (∀ r ∈ rs, c.serviceClient.list c.base.config.Project r = .ok (items r)) →
      listRegions c rs m calls
        = .ok (storeAll items rs m, calls ++ rs.map (ApiCall.list c.base.config.Project)) := by
  intro rs
  induction rs with
  | nil => intro m calls _; simp [listRegions, storeAll]
  | cons r rest ih =>
    intro m calls h
    rw [listRegions, h r (List.mem_cons_self _ _)]
    simp only
    rw [ih _ _ (fun r' hr' => h r' (List.mem_cons_of_mem _ hr')), storeAll_cons]
    simp

theorem list_refresh_ok (c : ComputeInstanceGroupsRegion) (items : String → StringSlice)
    (hlist : ∀ r ∈ c.base.config.Regions,
      c.serviceClient.list c.base.config.Project r = .ok (items r)) :
    c.List true = .ok
      ⟨SortedSyncMapKeys (storeAll items c.base.config.Regions ∅),
        { c with resourceMap := storeAll items c.base.config.Regions ∅ },
        c.base.config.Regions.map (ApiCall.list c.base.config.Project)⟩ := by
  simp [ComputeInstanceGroupsRegion.List, listRegions_ok c items _ _ _ hlist,
    ComputeInstanceGroupsRegion.ToSlice]

theorem sortedSyncMapKeys_perm (m : SyncMap) : (SortedSyncMapKeys m).Perm m.keys :=
  List.perm_insertionSort _ _

theorem mem_sortedSyncMapKeys (m : SyncMap) (k : String) : k ∈ SortedSyncMapKeys m ↔ k ∈ m :=
  (sortedSyncMapKeys_perm m).mem_iff.trans AList.mem_keys.symm

theorem sortedSyncMapKeys_sorted (m : SyncMap) : (SortedSyncMapKeys m).Sorted (· < ·) := by
  have htotal : IsTotal String (fun a b => a.toList ≤ b.toList) :=
    ⟨fun a b => by
      simpa only [← String.le_iff_toList_le] using le_total a b⟩
  have htrans : IsTrans String (fun a b => a.toList ≤ b.toList) :=
    ⟨fun a b d => by
      simpa only [← String.le_iff_toList_le] using le_trans⟩
  have h := List.sorted_insertionSort (fun a b : String => a.toList ≤ b.toList) m.keys
  have hle : (SortedSyncMapKeys m).Sorted (· ≤ ·) :=
    List.Pairwise.imp (fun {a b} hab => String.le_iff_toList_le.2 hab) h
  exact hle.lt_of_le ((sortedSyncMapKeys_perm m).nodup_iff.2 m.keys_nodup)

theorem pollLoop_polling_of_zero_interval (c : ComputeInstanceGroupsRegion)
    (instanceID region operation : String) (hnd : NeverDone c region operation)
    (ht : c.base.config.PollTime = 0) (hT : 0 ≤ c.base.config.Timeout) :
    ∀ (fuel : Nat) (opStatus : String) (n : Nat), opStatus ≠ "DONE" →
      pollLoop c instanceID region operation fuel opStatus 0 n = ⟨.polling, n + fuel⟩ := by
  intro fuel
  induction fuel with
  | zero => intro s n hs; simp [pollLoop, hs]
  | succ fuel ih =>
    intro s n hs
    obtain ⟨st, hget, hst⟩ := hnd n
    have hw : wrapInt (0 + c.base.config.PollTime) = 0 := by rw [ht]; decide
    rw [pollLoop_succ_continue c instanceID region operation hs fuel 0 n hget
      (by rw [hw]; omega), hw, ih st (n + 1) hst]
    congr 1
    omega

theorem quotient_bounds {t T : Int} (ht : 1 ≤ t) (hT : 0 ≤ T) :
    ((T / t).toNat : Int) * t ≤ T ∧ T < ((T / t).toNat + 1 : Nat) * t := by
  have hq : 0 ≤ T / t := Int.ediv_nonneg hT (by omega)
  have hcast : ((T / t).toNat : Int) = T / t := Int.toNat_of_nonneg hq
  refine ⟨?_, ?_⟩
  · rw [hcast]; exact Int.ediv_mul_le T (by omega)
  · push_cast
    rw [hcast]
    exact Int.lt_ediv_add_one_mul_self T (by omega)

/-- Completion within the budget: if the first `j` fetches succeed without
`"DONE"`, the next one answers `"DONE"`, and the elapsed time after it does not
exceed the timeout, the loop returns nil after `j + 1` fetches. -/
theorem pollLoop_done_within_budget (c : ComputeInstanceGroupsRegion)
    (instanceID region operation : String)
    (ht : 0 ≤ c.base.config.PollTime) (hT : c.base.config.Timeout < 2 ^ 63) :
    ∀ (j fuel : Nat) (opStatus : String) (seconds : Int) (n : Nat), opStatus ≠ "DONE" →
      0 ≤ seconds → seconds + (j + 1 : Nat) * c.base.config.PollTime ≤ c.base.config.Timeout →
      (∀ i, i < j → ∃ status,
        c.serviceClient.get c.base.config.Project region operation (n + i) = .ok status
          ∧ status ≠ "DONE") →
      c.serviceClient.get c.base.config.Project region operation (n + j) = .ok "DONE" →
      j + 1 ≤ fuel →
      pollLoop c instanceID region operation fuel opStatus seconds n
        = ⟨.returned none, n + (j + 1)⟩ := by
  intro j
  induction j with
  | zero =>
    intro fuel s seconds n hs h0 hle _ hdone hf
    obtain ⟨f, rfl⟩ : ∃ f, fuel = f + 1 := ⟨fuel - 1, by omega⟩
    push_cast at hle
    have hw : wrapInt (seconds + c.base.config.PollTime) = seconds + c.base.config.PollTime :=
      wrapInt_of_inRange (by linarith) (by linarith)
    rw [pollLoop_succ_continue c instanceID region operation hs f seconds n hdone
      (by rw [hw]; linarith), pollLoop_done]
  | succ j ih =>
    intro fuel s seconds n hs h0 hle hrun hdone hf
    obtain ⟨f, rfl⟩ : ∃ f, fuel = f + 1 := ⟨fuel - 1, by omega⟩
    obtain ⟨st, hget, hst⟩ := hrun 0 (by omega)
    have hjt : (0 : Int) ≤ (j + 1 : Nat) * c.base.config.PollTime :=
      mul_nonneg (by positivity) ht
    push_cast at hle hjt
    have hw : wrapInt (seconds + c.base.config.PollTime) = seconds + c.base.config.PollTime :=
      wrapInt_of_inRange (by linarith) (by linarith)
    rw [pollLoop_succ_continue c instanceID region operation hs f seconds n hget
      (by rw [hw]; linarith), hw]
    rw [ih f st _ (n + 1) hst (by linarith) (by push_cast; linarith)
      (fun i hi => by
        have := hrun (i + 1) (by omega)
        rwa [show n + (i + 1) = n + 1 + i by omega] at this)
      (by rwa [show n + (j + 1) = n + 1 + j by omega] at hdone) (by omega)]
    congr 1
    omega

/-! ## Claims about one deletion -/

/-- C1 (amended): with poll interval `t ≥ 1`, timeout `T ≥ 0` and `T + t` within
the range of Go's `int`, a deletion whose submission succeeds and whose status
never becomes `"DONE"` (no fetch error) returns the timeout error right after
fetch number `k = T / t + 1`, is still polling after every smaller number of
fetches, and `k` is the least positive integer with `k * t > T`. -/
theorem timeout_boundary (c : ComputeInstanceGroupsRegion) (instanceID region operation : String)
    (hdel : c.serviceClient.delete c.base.config.Project region instanceID = .ok operation)
    (hnd : NeverDone c region operation)
    (ht : 1 ≤ c.base.config.PollTime) (hT : 0 ≤ c.base.config.Timeout)
    (hno : c.base.config.Timeout + c.base.config.PollTime < 2 ^ 63) :
    (∀ fuel, (c.base.config.Timeout / c.base.config.PollTime).toNat + 1 ≤ fuel →
      deleteTask fuel c instanceID region
        = ⟨.returned (some (timeoutError c instanceID region)),
            (c.base.config.Timeout / c.base.config.PollTime).toNat + 1⟩)
    ∧ (∀ fuel, fuel < (c.base.config.Timeout / c.base.config.PollTime).toNat + 1 →
      deleteTask fuel c instanceID region = ⟨.polling, fuel⟩)
    ∧ c.base.config.Timeout
        < ((c.base.config.Timeout / c.base.config.PollTime).toNat + 1 : Nat)
          * c.base.config.PollTime
    ∧ (∀ j : Nat, c.base.config.Timeout < j * c.base.config.PollTime →
        (c.base.config.Timeout / c.base.config.PollTime).toNat + 1 ≤ j) := by
  obtain ⟨hlo, hhi⟩ := quotient_bounds ht hT
  refine ⟨fun fuel hf => ?_, fun fuel hf => ?_, hhi, fun j hj => ?_⟩
  · rw [deleteTask_of_delete_ok c instanceID region fuel hdel,
      pollLoop_timeout_of_gt c instanceID region operation hnd (by omega) hno
        (c.base.config.Timeout / c.base.config.PollTime).toNat fuel "" 0 0
        (by decide) le_rfl (by rw [zero_add]; exact hlo) (by rw [zero_add]; exact hhi) hf]
    simp
  · rw [deleteTask_of_delete_ok c instanceID region fuel hdel,
      pollLoop_polling_of_le c instanceID region operation hnd (by omega) (by omega) fuel
        (c.base.config.Timeout / c.base.config.PollTime).toNat "" 0 0
        (by decide) le_rfl (by rw [zero_add]; exact hlo) (by omega)]
    simp
  · by_contra hcon
    have hjq : (j : Int) ≤ ((c.base.config.Timeout / c.base.config.PollTime).toNat : Int) := by
      have : j ≤ (c.base.config.Timeout / c.base.config.PollTime).toNat := by omega
      exact_mod_cast this
    have := mul_le_mul_of_nonneg_right hjq (show (0 : Int) ≤ c.base.config.PollTime by omega)
    omega

/-- Witness of `timeout_boundary`: interval 10 and timeout 30 give `k = 4`. -/
theorem timeout_boundary_witness :
    deleteTask 4 cTen "a1" "r1" = ⟨.returned (some (timeoutError cTen "a1" "r1")), 4⟩
    ∧ deleteTask 3 cTen "a1" "r1" = ⟨.polling, 3⟩ :=
  ⟨(timeout_boundary cTen "a1" "r1" "operation-a1" rfl (fun _ => ⟨"RUNNING", rfl, by decide⟩)
      (by decide) (by decide) (by decide)).1 4 (by decide),
    (timeout_boundary cTen "a1" "r1" "operation-a1" rfl (fun _ => ⟨"RUNNING", rfl, by decide⟩)
      (by decide) (by decide) (by decide)).2.1 3 (by decide)⟩

/-- C1 as stated fails when `seconds` overflows: with interval `2 ^ 62` and
timeout `2 ^ 63 - 1` the least `k` with `k * t > T` is 2, yet after the second
fetch (and still after the fifth) the deletion has not returned. -/
theorem timeout_boundary_overflow :
    (1 ≤ cWrap.base.config.PollTime ∧ 0 ≤ cWrap.base.config.Timeout
      ∧ NeverDone cWrap "r1" "operation-a1"
      ∧ (cWrap.base.config.Timeout / cWrap.base.config.PollTime).toNat + 1 = 2)
    ∧ deleteTask 2 cWrap "a1" "r1" = ⟨.polling, 2⟩
    ∧ deleteTask 5 cWrap "a1" "r1" = ⟨.polling, 5⟩
    ∧ ¬ (∀ fuel, (cWrap.base.config.Timeout / cWrap.base.config.PollTime).toNat + 1 ≤ fuel →
          deleteTask fuel cWrap "a1" "r1"
            = ⟨.returned (some (timeoutError cWrap "a1" "r1")),
                (cWrap.base.config.Timeout / cWrap.base.config.PollTime).toNat + 1⟩) :=
  ⟨⟨by decide, by decide, fun _ => ⟨"RUNNING", rfl, by decide⟩, by decide⟩, by decide, by decide,
    fun h => absurd (h 2 (by decide)) (by decide)⟩

/-- C9 (amended): when the poll interval `t ≥ 1`, the timeout `T ≥ 0` and `T + t`
is within the range of Go's `int`, a deletion performs at most `T / t + 1`
status fetches whatever the provider answers, and has returned once that many
fetches were allowed; when `t = 0` and `T ≥ 0`, a deletion whose status never
becomes `"DONE"` (no fetch error) is still polling after every number of
fetches. -/
theorem polling_bounded_iff_positive_interval (c : ComputeInstanceGroupsRegion)
    (instanceID region : String) :
    (1 ≤ c.base.config.PollTime → 0 ≤ c.base.config.Timeout →
      c.base.config.Timeout + c.base.config.PollTime < 2 ^ 63 →
      ∀ fuel,
        (deleteTask fuel c instanceID region).fetches
          ≤ (c.base.config.Timeout / c.base.config.PollTime).toNat + 1
        ∧ ((c.base.config.Timeout / c.base.config.PollTime).toNat + 1 ≤ fuel →
          (deleteTask fuel c instanceID region).outcome ≠ .polling))
    ∧ (c.base.config.PollTime = 0 → 0 ≤ c.base.config.Timeout →
      ∀ operation,
        c.serviceClient.delete c.base.config.Project region instanceID = .ok operation →
        NeverDone c region operation →
        ∀ fuel, deleteTask fuel c instanceID region = ⟨.polling, fuel⟩) := by
  refine ⟨fun ht hT hno fuel => ?_, fun ht hT operation hdel hnd fuel => ?_⟩
  · cases hdel : c.serviceClient.delete c.base.config.Project region instanceID with
    | error e =>
      rw [deleteTask_of_delete_error c instanceID region fuel hdel]
      exact ⟨by simp, fun _ => by simp⟩
    | ok operation =>
      rw [deleteTask_of_delete_ok c instanceID region fuel hdel]
      have h := pollLoop_fetches_le c instanceID region operation ht hno fuel
        ((c.base.config.Timeout / c.base.config.PollTime).toNat + 1) "" 0 0 le_rfl hT
        (by rw [zero_add]; exact (quotient_bounds ht hT).2)
      simpa using h
  · rw [deleteTask_of_delete_ok c instanceID region fuel hdel,
      pollLoop_polling_of_zero_interval c instanceID region operation hnd ht hT fuel "" 0
        (by decide)]
    simp

/-- Witness of `polling_bounded_iff_positive_interval`: interval 10 and timeout
30 bound the fetches by 4; interval 0 keeps the deletion polling. -/
theorem polling_bounded_iff_positive_interval_witness :
    ((deleteTask 9 cTen "a1" "r1").fetches ≤ 4
      ∧ (deleteTask 9 cTen "a1" "r1").outcome ≠ .polling)
    ∧ deleteTask 9 cZero "a1" "r1" = ⟨.polling, 9⟩ :=
  ⟨⟨((polling_bounded_iff_positive_interval cTen "a1" "r1").1
        (by decide) (by decide) (by decide) 9).1,
      ((polling_bounded_iff_positive_interval cTen "a1" "r1").1
        (by decide) (by decide) (by decide) 9).2 (by decide)⟩,
    (polling_bounded_iff_positive_interval cZero "a1" "r1").2 rfl (by decide) "operation-a1" rfl
      (fun _ => ⟨"RUNNING", rfl, by decide⟩) 9⟩

/-- C9 as stated fails when `seconds` overflows: with interval and timeout both
`2 ^ 63 - 1` the stated bound is 2 fetches, yet the deletion performs a third
(and a sixth) fetch and is still polling. -/
theorem polling_bound_overflow :
    (1 ≤ cWrapMax.base.config.PollTime ∧ 0 ≤ cWrapMax.base.config.Timeout
      ∧ (cWrapMax.base.config.Timeout / cWrapMax.base.config.PollTime).toNat + 1 = 2)
    ∧ deleteTask 6 cWrapMax "a1" "r1" = ⟨.polling, 6⟩
    ∧ ¬ (∀ fuel, (deleteTask fuel cWrapMax "a1" "r1").fetches
          ≤ (cWrapMax.base.config.Timeout / cWrapMax.base.config.PollTime).toNat + 1) :=
  ⟨⟨by decide, by decide, by decide⟩, by decide, fun h => absurd (h 3) (by decide)⟩

/-- The goroutine's own effect on the cache is part of `Remove`: what the cache
holds for `k` afterwards when `k`'s goroutine did not return nil. -/
theorem remove_lookup_of_not_nil (fuel : Nat) (c : ComputeInstanceGroupsRegion)
    (order : Entries) (hperm : order.Perm c.resourceMap.entries) (k : String)
    (p : DefaultResourceProperties) (hk : c.resourceMap.lookup k = some p)
    (hnot : (deleteTask fuel c k p.region).outcome ≠ .returned none) :
    (c.Remove fuel order).c.resourceMap.lookup k = some p := by
  unfold ComputeInstanceGroupsRegion.Remove
  simp only
  rw [runGroup_lookup_of_not_nil fuel c k order _ (fun e he hek => ?_)]
  · exact hk
  · have := entry_eq_of_lookup hk (hperm.mem_iff.1 he) hek
    subst this
    exact hnot

theorem remove_lookup_of_nil (fuel : Nat) (c : ComputeInstanceGroupsRegion)
    (order : Entries) (hperm : order.Perm c.resourceMap.entries) (k : String)
    (p : DefaultResourceProperties) (hk : c.resourceMap.lookup k = some p)
    (hnil : (deleteTask fuel c k p.region).outcome = .returned none) :
    (c.Remove fuel order).c.resourceMap.lookup k = none := by
  unfold ComputeInstanceGroupsRegion.Remove
  simp only
  apply runGroup_lookup_of_nil
  right
  exact ⟨⟨k, p⟩, hperm.mem_iff.2 (AList.mem_lookup_iff.1 (by rw [hk]; rfl)), rfl, hnil⟩

theorem remove_lookup_of_not_mem (fuel : Nat) (c : ComputeInstanceGroupsRegion)
    (order : Entries) (k : String) (hk : c.resourceMap.lookup k = none) :
    (c.Remove fuel order).c.resourceMap.lookup k = none := by
  unfold ComputeInstanceGroupsRegion.Remove
  simp only
  exact runGroup_lookup_of_nil fuel c k order _ (Or.inl hk)

/-- C2 fails on the code: with poll interval 5 and timeout 3 the first status
fetch answers `"DONE"`, yet the deletion returns the timeout error after that
fetch (the timeout check runs before the loop condition is looked at again),
`Remove` returns that error and the identifier stays in the cache. -/
theorem done_on_first_poll_reported_as_timeout :
    cQuick.serviceClient.delete "p" "r1" "a1" = .ok "operation-a1"
    ∧ cQuick.serviceClient.get "p" "r1" "operation-a1" 0 = .ok "DONE"
    ∧ (∀ fuel, 1 ≤ fuel →
        deleteTask fuel cQuick "a1" "r1"
          = ⟨.returned (some (timeoutError cQuick "a1" "r1")), 1⟩)
    ∧ (cQuick.Remove 1 cQuick.resourceMap.entries).outcome
        = .returned (some (timeoutError cQuick "a1" "r1"))
    ∧ (cQuick.Remove 1 cQuick.resourceMap.entries).c.resourceMap.lookup "a1" = some ⟨"r1"⟩ := by
  refine ⟨rfl, rfl, fun fuel hf => ?_, by decide, by decide⟩
  obtain ⟨f, rfl⟩ : ∃ f, fuel = f + 1 := ⟨fuel - 1, by omega⟩
  have hdel : cQuick.serviceClient.delete cQuick.base.config.Project "r1" "a1"
      = .ok "operation-a1" := rfl
  rw [deleteTask_of_delete_ok cQuick "a1" "r1" (f + 1) hdel]
  exact pollLoop_succ_timeout cQuick "a1" "r1" "operation-a1" (by decide) f 0 0 rfl (by decide)

theorem exists_first {α : Type} (P : α → Prop) :
    ∀ l : List α, (∃ x ∈ l, P x) →
      ∃ pre e post, l = pre ++ e :: post ∧ (∀ x ∈ pre, ¬ P x) ∧ P e := by
  intro l
  induction l with
  | nil => rintro ⟨x, hx, _⟩; simp at hx
  | cons a rest ih =>
    rintro ⟨x, hx, hPx⟩
    by_cases ha : P a
    · exact ⟨[], a, rest, rfl, by simp, ha⟩
    · rcases List.mem_cons.1 hx with rfl | hx'
      · exact absurd hPx ha
      · obtain ⟨pre, e, post, rfl, hpre, he⟩ := ih ⟨x, hx', hPx⟩
        refine ⟨a :: pre, e, post, rfl, ?_, he⟩
        intro y hy
        rcases List.mem_cons.1 hy with rfl | hy
        · exact ha
        · exact hpre y hy

theorem taskError_eq_none_iff (fuel : Nat) (c : ComputeInstanceGroupsRegion) (e : Entry) :
    taskError fuel c e = none ↔
      (deleteTask fuel c e.1 e.2.region).outcome = .returned none
      ∨ (deleteTask fuel c e.1 e.2.region).outcome = .polling := by
  unfold taskError
  cases (deleteTask fuel c e.1 e.2.region).outcome with
  | polling => simp
  | returned err => cases err <;> simp

theorem remove_outcome_polling_iff (fuel : Nat) (c : ComputeInstanceGroupsRegion)
    (order : Entries) :
    (c.Remove fuel order).outcome = .polling
      ↔ ∃ e ∈ order, (deleteTask fuel c e.1 e.2.region).outcome = .polling := by
  unfold ComputeInstanceGroupsRegion.Remove
  simp only
  have hw := runGroup_waiting fuel c order ⟨none, false, c.resourceMap, []⟩
  by_cases h : (runGroup fuel c order ⟨none, false, c.resourceMap, []⟩).waiting = true
  · simp only [h, if_true, true_iff]
    simpa using hw.1 h
  · have hne : ¬ ∃ e ∈ order, (deleteTask fuel c e.1 e.2.region).outcome = .polling :=
      fun hex => h (hw.2 (Or.inr hex))
    simp [h, hne]

theorem remove_outcome_of_returned (fuel : Nat) (c : ComputeInstanceGroupsRegion)
    (order : Entries)
    (hall : ∀ e ∈ order, (deleteTask fuel c e.1 e.2.region).outcome ≠ .polling) :
    (c.Remove fuel order).outcome = .returned (order.findSome? (taskError fuel c)) := by
  have hnp : ¬ (c.Remove fuel order).outcome = .polling := by
    rw [remove_outcome_polling_iff]
    rintro ⟨e, he, hp⟩
    exact hall e he hp
  unfold ComputeInstanceGroupsRegion.Remove at hnp ⊢
  simp only at hnp ⊢
  by_cases h : (runGroup fuel c order ⟨none, false, c.resourceMap, []⟩).waiting = true
  · simp [h] at hnp
  · simp only [h, Bool.false_eq_true, if_false, runGroup_err]
    simp

theorem remove_outcome_nil_iff (fuel : Nat) (c : ComputeInstanceGroupsRegion)
    (order : Entries) :
    (c.Remove fuel order).outcome = .returned none
      ↔ ∀ e ∈ order, (deleteTask fuel c e.1 e.2.region).outcome = .returned none := by
  constructor
  · intro h e he
    have hnp : ∀ x ∈ order, (deleteTask fuel c x.1 x.2.region).outcome ≠ .polling := by
      intro x hx hp
      have := (remove_outcome_polling_iff fuel c order).2 ⟨x, hx, hp⟩
      rw [h] at this
      simp at this
    rw [remove_outcome_of_returned fuel c order hnp] at h
    have hnone : order.findSome? (taskError fuel c) = none := by simpa using h
    rcases (taskError_eq_none_iff fuel c e).1 (List.findSome?_eq_none_iff.1 hnone e he) with h' | h'
    · exact h'
    · exact absurd h' (hnp e he)
  · intro h
    rw [remove_outcome_of_returned fuel c order (fun e he => by rw [h e he]; simp)]
    congr 1
    exact List.findSome?_eq_none_iff.2
      (fun e he => (taskError_eq_none_iff fuel c e).2 (Or.inl (h e he)))

theorem remove_outcome_first (fuel : Nat) (c : ComputeInstanceGroupsRegion)
    (pre post : Entries) (e : Entry) (err : GoError)
    (hall : ∀ x ∈ pre ++ e :: post, (deleteTask fuel c x.1 x.2.region).outcome ≠ .polling)
    (hpre : ∀ x ∈ pre, (deleteTask fuel c x.1 x.2.region).outcome = .returned none)
    (he : (deleteTask fuel c e.1 e.2.region).outcome = .returned (some err)) :
    (c.Remove fuel (pre ++ e :: post)).outcome = .returned (some err) := by
  rw [remove_outcome_of_returned fuel c _ hall, List.findSome?_append,
    List.findSome?_eq_none_iff.2
      (fun x hx => (taskError_eq_none_iff fuel c x).2 (Or.inl (hpre x hx))),
    List.findSome?_cons]
  simp [taskError, he]

theorem remove_calls (fuel : Nat) (c : ComputeInstanceGroupsRegion) (order : Entries) :
    (c.Remove fuel order).calls
      = order.flatMap (fun e => deleteCalls fuel c e.1 e.2.region) := by
  unfold ComputeInstanceGroupsRegion.Remove
  simp [runGroup_calls]

/-! ## Claims about `Remove` -/

/-- C6: a provider error is handed on unchanged and leaves the instance cached.
If the delete submission fails with error `e`, the deletion returns exactly `e`
with no status fetch and a single API call (the delete); if the deletion is
still polling after `n` fetches and the next fetch fails with `e`, the deletion
returns exactly `e` after `n + 1` fetches; in both cases the cache still maps
the identifier to its properties after `Remove`. -/
theorem provider_errors_propagate (fuel : Nat) (c : ComputeInstanceGroupsRegion)
    (order : Entries) (hperm : order.Perm c.resourceMap.entries)
    (instanceID : String) (p : DefaultResourceProperties)
    (hk : c.resourceMap.lookup instanceID = some p) :
    (∀ e, c.serviceClient.delete c.base.config.Project p.region instanceID = .error e →
      deleteTask fuel c instanceID p.region = ⟨.returned (some (.api e)), 0⟩
      ∧ deleteCalls fuel c instanceID p.region
          = [ApiCall.delete c.base.config.Project p.region instanceID]
      ∧ (c.Remove fuel order).c.resourceMap.lookup instanceID = some p)
    ∧ (∀ operation n e,
      c.serviceClient.delete c.base.config.Project p.region instanceID = .ok operation →
      (deleteTask n c instanceID p.region).outcome = .polling →
      c.serviceClient.get c.base.config.Project p.region operation n = .error e →
      n + 1 ≤ fuel →
      deleteTask fuel c instanceID p.region = ⟨.returned (some (.api e)), n + 1⟩
      ∧ (c.Remove fuel order).c.resourceMap.lookup instanceID = some p) := by
  refine ⟨fun e hdel => ?_, fun operation n e hdel hpoll hget hfuel => ?_⟩
  · have htask := deleteTask_of_delete_error c instanceID p.region fuel hdel
    refine ⟨htask, by simp [deleteCalls, hdel], ?_⟩
    exact remove_lookup_of_not_nil fuel c order hperm instanceID p hk (by rw [htask]; simp)
  · have htask : deleteTask fuel c instanceID p.region = ⟨.returned (some (.api e)), n + 1⟩ := by
      rw [deleteTask_of_delete_ok c instanceID p.region n hdel] at hpoll
      obtain ⟨s', sec', hs', hsplit⟩ :=
        pollLoop_polling_split c instanceID p.region operation n "" 0 0 hpoll
      obtain ⟨b, rfl⟩ : ∃ b, fuel = n + (b + 1) := ⟨fuel - n - 1, by omega⟩
      rw [deleteTask_of_delete_ok c instanceID p.region _ hdel, hsplit (b + 1)]
      have hget' : c.serviceClient.get c.base.config.Project p.region operation (0 + n)
          = .error e := by rw [zero_add]; exact hget
      rw [pollLoop_succ_error c instanceID p.region operation hs' b sec' (0 + n) hget',
        zero_add]
    exact ⟨htask,
      remove_lookup_of_not_nil fuel c order hperm instanceID p hk (by rw [htask]; simp)⟩

/-- Witness of `provider_errors_propagate`: the refused delete of `a0` and the
failing second status fetch of `a2`. -/
theorem provider_errors_propagate_witness :
    (deleteTask 5 cFailing "a0" "r1" = ⟨.returned (some (.api "permission denied")), 0⟩
      ∧ deleteCalls 5 cFailing "a0" "r1" = [ApiCall.delete "p" "r1" "a0"]
      ∧ (cFailing.Remove 5 cFailing.resourceMap.entries).c.resourceMap.lookup "a0"
          = some ⟨"r1"⟩)
    ∧ (deleteTask 5 cFailing "a2" "r1" = ⟨.returned (some (.api "backend error")), 2⟩
      ∧ (cFailing.Remove 5 cFailing.resourceMap.entries).c.resourceMap.lookup "a2"
          = some ⟨"r1"⟩) :=
  ⟨(provider_errors_propagate 5 cFailing cFailing.resourceMap.entries (List.Perm.refl _)
      "a0" ⟨"r1"⟩ (by decide)).1 "permission denied" rfl,
    (provider_errors_propagate 5 cFailing cFailing.resourceMap.entries (List.Perm.refl _)
      "a2" ⟨"r1"⟩ (by decide)).2 "operation-a2" 1 "backend error" rfl (by decide) rfl
      (by decide)⟩

theorem findSome?_congr_of_mem {α β : Type} (f g : α → Option β) :
    ∀ l : List α, (∀ x ∈ l, f x = g x) → l.findSome? f = l.findSome? g := by
  intro l
  induction l with
  | nil => intro _; rfl
  | cons a rest ih =>
    intro h
    rw [List.findSome?_cons, List.findSome?_cons, h a (List.mem_cons_self _ _),
      ih (fun x hx => h x (List.mem_cons_of_mem _ hx))]

/-- If every goroutine of a group returns, a common number of fetches suffices
for all of them. -/
theorem exists_common_fuel (c : ComputeInstanceGroupsRegion) :
    ∀ l : Entries, (∀ e ∈ l, ∃ f, (deleteTask f c e.1 e.2.region).outcome ≠ .polling) →
      ∃ N, ∀ e ∈ l, (deleteTask N c e.1 e.2.region).outcome ≠ .polling := by
  intro l
  induction l with
  | nil => intro _; exact ⟨0, fun e he => by simp at he⟩
  | cons a rest ih =>
    intro h
    obtain ⟨f, hf⟩ := h a (List.mem_cons_self _ _)
    obtain ⟨N, hN⟩ := ih (fun e he => h e (List.mem_cons_of_mem _ he))
    refine ⟨max f N, fun e he => ?_⟩
    rcases List.mem_cons.1 he with rfl | he'
    · rw [deleteTask_stable c e.1 e.2.region f (max f N) hf (le_max_left _ _)]
      exact hf
    · rw [deleteTask_stable c e.1 e.2.region N (max f N) (hN e he') (le_max_right _ _)]
      exact hN e he'

/-- Once every goroutine has returned, allowing more fetches does not change
what `Remove` returns. -/
theorem remove_outcome_stable (c : ComputeInstanceGroupsRegion) (order : Entries)
    (N fuel : Nat) (hN : ∀ e ∈ order, (deleteTask N c e.1 e.2.region).outcome ≠ .polling)
    (hf : N ≤ fuel) :
    (c.Remove fuel order).outcome = (c.Remove N order).outcome := by
  have heq : ∀ e ∈ order, deleteTask fuel c e.1 e.2.region = deleteTask N c e.1 e.2.region :=
    fun e he => deleteTask_stable c e.1 e.2.region N fuel (hN e he) hf
  rw [remove_outcome_of_returned N c order hN,
    remove_outcome_of_returned fuel c order (fun e he => by rw [heq e he]; exact hN e he)]
  congr 1
  exact findSome?_congr_of_mem _ _ order (fun e he => by simp only [taskError, heq e he])

theorem deleteTask_returned_of_positive_interval (c : ComputeInstanceGroupsRegion)
    (instanceID region : String) (ht : 1 ≤ c.base.config.PollTime)
    (hT : 0 ≤ c.base.config.Timeout)
    (hno : c.base.config.Timeout + c.base.config.PollTime < 2 ^ 63) :
    (deleteTask ((c.base.config.Timeout / c.base.config.PollTime).toNat + 1) c instanceID
      region).outcome ≠ .polling := by
  cases hdel : c.serviceClient.delete c.base.config.Project region instanceID with
  | error e => rw [deleteTask_of_delete_error c instanceID region _ hdel]; simp
  | ok operation =>
    rw [deleteTask_of_delete_ok c instanceID region _ hdel]
    exact (pollLoop_fetches_le c instanceID region operation ht hno _
      ((c.base.config.Timeout / c.base.config.PollTime).toNat + 1) "" 0 0 le_rfl hT
      (by rw [zero_add]; exact (quotient_bounds ht hT).2)).2 le_rfl

/-- C4 (amended): `Remove` submits a delete for every identifier in the cache.
If every deletion returns, then from some number of fetches on every goroutine
has returned, its result no longer changes, and `Remove` returns: nil exactly
when every deletion returned nil, and otherwise the error of the first
goroutine, in the order of return, that returned one.  Every deletion does
return when the poll interval `t ≥ 1`, the timeout `T ≥ 0` and `T + t` is within
the range of Go's `int`.  While some deletion has not returned, `Remove` is
still waiting; so if some deletion never returns, `Remove` never returns. -/
theorem remove_first_error (c : ComputeInstanceGroupsRegion)
    (order : Entries) (hperm : order.Perm c.resourceMap.entries) :
    (∀ fuel, ∀ e ∈ c.resourceMap.entries,
      ApiCall.delete c.base.config.Project e.2.region e.1 ∈ (c.Remove fuel order).calls)
    ∧ ((∀ e ∈ c.resourceMap.entries,
          ∃ f, (deleteTask f c e.1 e.2.region).outcome ≠ .polling) →
        ∃ N, ∀ fuel, N ≤ fuel →
          (∀ e ∈ c.resourceMap.entries,
            (deleteTask fuel c e.1 e.2.region).outcome ≠ .polling
            ∧ deleteTask fuel c e.1 e.2.region = deleteTask N c e.1 e.2.region)
          ∧ (c.Remove fuel order).outcome = (c.Remove N order).outcome
          ∧ (∃ r, (c.Remove fuel order).outcome = .returned r)
          ∧ ((c.Remove fuel order).outcome = .returned none
              ↔ ∀ e ∈ c.resourceMap.entries,
                  (deleteTask fuel c e.1 e.2.region).outcome = .returned none)
          ∧ ((∃ e ∈ c.resourceMap.entries,
                (deleteTask fuel c e.1 e.2.region).outcome ≠ .returned none) →
              ∃ pre e post err, order = pre ++ e :: post
                ∧ (∀ x ∈ pre, (deleteTask fuel c x.1 x.2.region).outcome = .returned none)
                ∧ (deleteTask fuel c e.1 e.2.region).outcome = .returned (some err)
                ∧ (c.Remove fuel order).outcome = .returned (some err)))
    ∧ (1 ≤ c.base.config.PollTime → 0 ≤ c.base.config.Timeout →
        c.base.config.Timeout + c.base.config.PollTime < 2 ^ 63 →
        ∀ e ∈ c.resourceMap.entries,
          (deleteTask ((c.base.config.Timeout / c.base.config.PollTime).toNat + 1) c e.1
            e.2.region).outcome ≠ .polling)
    ∧ (∀ fuel,
        (∃ e ∈ c.resourceMap.entries, (deleteTask fuel c e.1 e.2.region).outcome = .polling) →
        (c.Remove fuel order).outcome = .polling)
    ∧ ((∃ e ∈ c.resourceMap.entries,
          ∀ fuel, (deleteTask fuel c e.1 e.2.region).outcome = .polling) →
        ∀ fuel, (c.Remove fuel order).outcome = .polling) := by
  have hwait : ∀ fuel,
      (∃ e ∈ c.resourceMap.entries, (deleteTask fuel c e.1 e.2.region).outcome = .polling) →
      (c.Remove fuel order).outcome = .polling := by
    rintro fuel ⟨e, he, hp⟩
    rw [remove_outcome_polling_iff]
    exact ⟨e, hperm.mem_iff.2 he, hp⟩
  refine ⟨fun fuel e he => ?_, fun hret => ?_, fun ht hT hno e _ => ?_, hwait,
    fun ⟨e, he, hp⟩ fuel => hwait fuel ⟨e, he, hp fuel⟩⟩
  · rw [remove_calls]
    exact List.mem_flatMap.2 ⟨e, hperm.mem_iff.2 he, by simp [deleteCalls]⟩
  · obtain ⟨N, hN⟩ := exists_common_fuel c order
      (fun e he => hret e (hperm.mem_iff.1 he))
    refine ⟨N, fun fuel hf => ?_⟩
    have heq : ∀ e ∈ order, deleteTask fuel c e.1 e.2.region = deleteTask N c e.1 e.2.region :=
      fun e he => deleteTask_stable c e.1 e.2.region N fuel (hN e he) hf
    have hall : ∀ e ∈ order, (deleteTask fuel c e.1 e.2.region).outcome ≠ .polling :=
      fun e he => by rw [heq e he]; exact hN e he
    refine ⟨fun e he => ⟨hall e (hperm.mem_iff.2 he), heq e (hperm.mem_iff.2 he)⟩,
      remove_outcome_stable c order N fuel hN hf,
      ⟨_, remove_outcome_of_returned fuel c order hall⟩, ?_, ?_⟩
    · rw [remove_outcome_nil_iff]
      exact ⟨fun h e he => h e (hperm.mem_iff.2 he), fun h e he => h e (hperm.mem_iff.1 he)⟩
    · rintro ⟨x, hx, hxn⟩
      obtain ⟨pre, e, post, rfl, hpre, he⟩ :=
        exists_first
          (fun e : Entry => (deleteTask fuel c e.1 e.2.region).outcome ≠ .returned none)
          order ⟨x, hperm.mem_iff.2 hx, hxn⟩
      have hpre' : ∀ y ∈ pre, (deleteTask fuel c y.1 y.2.region).outcome = .returned none :=
        fun y hy => not_not.1 (hpre y hy)
      cases hout : (deleteTask fuel c e.1 e.2.region).outcome with
      | polling => exact absurd hout (hall e (by simp))
      | returned r =>
        cases r with
        | none => exact absurd hout he
        | some err =>
          exact ⟨pre, e, post, err, rfl, hpre', hout,
            remove_outcome_first fuel c pre post e err hall hpre' hout⟩
  · exact deleteTask_returned_of_positive_interval c e.1 e.2.region ht hT hno

/-- Witness of `remove_first_error`: on `cMixed` every deletion has returned
after 2 fetches, and `Remove` returns an error instead of nil. -/
theorem remove_first_error_witness :
    ApiCall.delete "p" "r1" "web" ∈ (cMixed.Remove 2 orderMixed).calls
    ∧ (∃ N, ∀ fuel, N ≤ fuel →
        (∃ r, (cMixed.Remove fuel orderMixed).outcome = .returned r)
        ∧ (cMixed.Remove fuel orderMixed).outcome = (cMixed.Remove N orderMixed).outcome)
    ∧ ∀ e ∈ cMixed.resourceMap.entries, (deleteTask 2 cMixed e.1 e.2.region).outcome ≠ .polling :=
  ⟨(remove_first_error cMixed orderMixed (by decide)).1 2 ⟨"web", ⟨"r1"⟩⟩ (by decide),
    ((remove_first_error cMixed orderMixed (by decide)).2.1
      (fun e he => ⟨2, (by decide : ∀ e ∈ cMixed.resourceMap.entries,
        (deleteTask 2 cMixed e.1 e.2.region).outcome ≠ .polling) e he⟩)).imp
      (fun _ h fuel hf => ⟨(h fuel hf).2.2.1, (h fuel hf).2.1⟩),
    (remove_first_error cMixed orderMixed (by decide)).2.2.1 (by decide) (by decide)
      (by decide)⟩

/-- C4 as stated fails when a deletion never returns: on `cHang` (poll
interval 0) the delete of `a0` is refused, so not every deletion returns nil,
but the deletion of `a1` polls for ever and `Remove` never returns an error
(nor nil): it is still waiting after any number of fetches. -/
theorem remove_waits_for_hanging_deletion :
    (cHang.resourceMap.lookup "a0" = some ⟨"r1"⟩ ∧ cHang.resourceMap.lookup "a1" = some ⟨"r1"⟩
      ∧ (∀ fuel, deleteTask fuel cHang "a0" "r1"
          = ⟨.returned (some (.api "permission denied")), 0⟩))
    ∧ (∀ fuel, deleteTask fuel cHang "a1" "r1" = ⟨.polling, fuel⟩)
    ∧ (∀ fuel, (cHang.Remove fuel cHang.resourceMap.entries).outcome = .polling)
    ∧ ¬ ∃ fuel r, (cHang.Remove fuel cHang.resourceMap.entries).outcome = .returned r := by
  have ha1 : ∀ fuel, deleteTask fuel cHang "a1" "r1" = ⟨.polling, fuel⟩ := by
    intro fuel
    have hdel : cHang.serviceClient.delete cHang.base.config.Project "r1" "a1"
        = .ok "operation-a1" := rfl
    rw [deleteTask_of_delete_ok cHang "a1" "r1" fuel hdel,
      pollLoop_polling_of_zero_interval cHang "a1" "r1" "operation-a1"
        (fun _ => ⟨"RUNNING", rfl, by decide⟩) rfl (by decide) fuel "" 0 (by decide)]
    simp
  have hwait : ∀ fuel, (cHang.Remove fuel cHang.resourceMap.entries).outcome = .polling := by
    intro fuel
    rw [remove_outcome_polling_iff]
    exact ⟨⟨"a1", ⟨"r1"⟩⟩, by decide, by rw [ha1 fuel]⟩
  refine ⟨⟨by decide, by decide, fun fuel => ?_⟩, ha1, hwait, ?_⟩
  · exact deleteTask_of_delete_error cHang "a0" "r1" fuel rfl
  · rintro ⟨fuel, r, h⟩
    rw [hwait fuel] at h
    simp at h

/-- C3 (amended): in every `Remove`, a cached identifier is absent afterwards
exactly when its own deletion returned nil, and an identifier whose deletion
did not return nil keeps its properties.  A deletion returns nil when its
`"DONE"` is fetched while the elapsed time is still within the timeout (a
`"DONE"` fetched on the fetch that exceeds the timeout is not covered).  If
the deletion of `X` returns the timeout error and the deletion of `Y` returns
nil in the same `Remove`, then afterwards the cache still maps `X` to its
properties and does not contain `Y`; `Remove` returns a non-nil error, the one
of the first goroutine that returned an error; when that goroutine is the one
of `X`, the error is the timeout error of `X`, whose text contains the
identifier `X`. -/
theorem failed_instance_retained (fuel : Nat) (c : ComputeInstanceGroupsRegion)
    (order : Entries) (hperm : order.Perm c.resourceMap.entries) :
    (∀ k p, c.resourceMap.lookup k = some p →
      (k ∉ (c.Remove fuel order).c.resourceMap
        ↔ (deleteTask fuel c k p.region).outcome = .returned none))
    ∧ (∀ k p, c.resourceMap.lookup k = some p →
        (deleteTask fuel c k p.region).outcome ≠ .returned none →
        (c.Remove fuel order).c.resourceMap.lookup k = some p)
    ∧ (∀ k, k ∉ c.resourceMap → k ∉ (c.Remove fuel order).c.resourceMap)
    ∧ (∀ Y pY operation (j : Nat), c.resourceMap.lookup Y = some pY →
        c.serviceClient.delete c.base.config.Project pY.region Y = .ok operation →
        0 ≤ c.base.config.PollTime → c.base.config.Timeout < 2 ^ 63 →
        ((j + 1 : Nat) : Int) * c.base.config.PollTime ≤ c.base.config.Timeout →
        (∀ i, i < j → ∃ status,
          c.serviceClient.get c.base.config.Project pY.region operation i = .ok status
            ∧ status ≠ "DONE") →
        c.serviceClient.get c.base.config.Project pY.region operation j = .ok "DONE" →
        j + 1 ≤ fuel →
        deleteTask fuel c Y pY.region = ⟨.returned none, j + 1⟩
        ∧ Y ∉ (c.Remove fuel order).c.resourceMap)
    ∧ (∀ X Y pX pY, c.resourceMap.lookup X = some pX → c.resourceMap.lookup Y = some pY →
        (deleteTask fuel c X pX.region).outcome
          = .returned (some (timeoutError c X pX.region)) →
        (deleteTask fuel c Y pY.region).outcome = .returned none →
        (c.Remove fuel order).c.resourceMap.lookup X = some pX
        ∧ Y ∉ (c.Remove fuel order).c.resourceMap
        ∧ (∃ pre e post err, order = pre ++ e :: post
            ∧ (∀ x ∈ pre, (deleteTask fuel c x.1 x.2.region).outcome = .returned none)
            ∧ (deleteTask fuel c e.1 e.2.region).outcome = .returned (some err)
            ∧ (c.Remove fuel order).outcome = .returned (some err))
        ∧ (∀ pre post, order = pre ++ ⟨X, pX⟩ :: post →
            (∀ x ∈ pre, (deleteTask fuel c x.1 x.2.region).outcome = .returned none) →
            (c.Remove fuel order).outcome = .returned (some (timeoutError c X pX.region)))
        ∧ textContains (timeoutError c X pX.region).Error X) := by
  have hiff : ∀ k p, c.resourceMap.lookup k = some p →
      (k ∉ (c.Remove fuel order).c.resourceMap
        ↔ (deleteTask fuel c k p.region).outcome = .returned none) := by
    intro k p hk
    rw [← AList.lookup_eq_none]
    constructor
    · intro hnone
      by_contra hnot
      rw [remove_lookup_of_not_nil fuel c order hperm k p hk hnot] at hnone
      simp at hnone
    · exact remove_lookup_of_nil fuel c order hperm k p hk
  refine ⟨hiff, fun k p hk hnot => remove_lookup_of_not_nil fuel c order hperm k p hk hnot,
    fun k hk => ?_, fun Y pY operation j hY hdel ht hT hle hrun hdone hf => ?_,
    fun X Y pX pY hX hY hXt hYd => ?_⟩
  · rw [← AList.lookup_eq_none] at hk ⊢
    exact remove_lookup_of_not_mem fuel c order k hk
  · have htask : deleteTask fuel c Y pY.region = ⟨.returned none, j + 1⟩ := by
      rw [deleteTask_of_delete_ok c Y pY.region fuel hdel,
        pollLoop_done_within_budget c Y pY.region operation ht hT j fuel "" 0 0 (by decide)
          le_rfl (by rw [zero_add]; exact hle)
          (fun i hi => by rw [zero_add]; exact hrun i hi)
          (by rw [zero_add]; exact hdone) hf, zero_add]
    exact ⟨htask, (hiff Y pY hY).2 (by rw [htask])⟩
  · have hall : ∀ e ∈ order, (deleteTask fuel c e.1 e.2.region).outcome ≠ .polling := by
      intro e _
      have hfull : deleteTask fuel c X pX.region
          = ⟨.returned (some (timeoutError c X pX.region)),
              (deleteTask fuel c X pX.region).fetches⟩ := by
        rw [← hXt]
      exact deleteTask_returned_of_timeout fuel c X pX.region e.1 e.2.region hfull
    have hXmem : (⟨X, pX⟩ : Entry) ∈ order :=
      hperm.mem_iff.2 (AList.mem_lookup_iff.1 (by rw [hX]; rfl))
    refine ⟨?_, (hiff Y pY hY).2 hYd, ?_, ?_, textContains_timeoutError c X pX.region⟩
    · exact remove_lookup_of_not_nil fuel c order hperm X pX hX (by rw [hXt]; simp)
    · obtain ⟨pre, e, post, rfl, hpre, he⟩ :=
        exists_first
          (fun e : Entry => (deleteTask fuel c e.1 e.2.region).outcome ≠ .returned none)
          order ⟨⟨X, pX⟩, hXmem, by simp only [hXt]; simp⟩
      have hpre' : ∀ y ∈ pre, (deleteTask fuel c y.1 y.2.region).outcome = .returned none :=
        fun y hy => not_not.1 (hpre y hy)
      cases hout : (deleteTask fuel c e.1 e.2.region).outcome with
      | polling => exact absurd hout (hall e (by simp))
      | returned r =>
        cases r with
        | none => exact absurd hout he
        | some err =>
          exact ⟨pre, e, post, err, rfl, hpre', hout,
            remove_outcome_first fuel c pre post e err hall hpre' hout⟩
    · rintro pre post rfl hpre
      exact remove_outcome_first fuel c pre post ⟨X, pX⟩ _ hall hpre hXt

/-- Witness of `failed_instance_retained`: on `cTwo` the deletion of `web`
times out and the deletion of `db` fetches `"DONE"` within the timeout. -/
theorem failed_instance_retained_witness :
    ((cTwo.Remove 2 cTwo.resourceMap.entries).c.resourceMap.lookup "web" = some ⟨"r1"⟩
      ∧ "db" ∉ (cTwo.Remove 2 cTwo.resourceMap.entries).c.resourceMap
      ∧ (cTwo.Remove 2 cTwo.resourceMap.entries).outcome
          = .returned (some (timeoutError cTwo "web" "r1")))
    ∧ (deleteTask 2 cTwo "db" "r1" = ⟨.returned none, 1⟩
      ∧ "db" ∉ (cTwo.Remove 2 cTwo.resourceMap.entries).c.resourceMap) :=
  ⟨⟨((failed_instance_retained 2 cTwo cTwo.resourceMap.entries (List.Perm.refl _)).2.2.2.2
        "web" "db" ⟨"r1"⟩ ⟨"r1"⟩ (by decide) (by decide) (by decide) (by decide)).1,
      ((failed_instance_retained 2 cTwo cTwo.resourceMap.entries (List.Perm.refl _)).2.2.2.2
        "web" "db" ⟨"r1"⟩ ⟨"r1"⟩ (by decide) (by decide) (by decide) (by decide)).2.1,
      ((failed_instance_retained 2 cTwo cTwo.resourceMap.entries (List.Perm.refl _)).2.2.2.2
        "web" "db" ⟨"r1"⟩ ⟨"r1"⟩ (by decide) (by decide) (by decide) (by decide)).2.2.2.1
        [⟨"db", ⟨"r1"⟩⟩] [] (by decide) (by decide)⟩,
    (failed_instance_retained 2 cTwo cTwo.resourceMap.entries (List.Perm.refl _)).2.2.2.1
      "db" ⟨"r1"⟩ "operation-db" 0 (by decide) rfl (by decide) (by decide) (by decide)
      (fun i hi => absurd hi (Nat.not_lt_zero i)) rfl (by decide)⟩

/-- C3 as stated fails when a third instance fails first: on `cMixed` the
deletion of `web` times out and the deletion of `db` completes, but the error
that `Remove` returns is the refusal of the delete of `cache`, whose text does
not contain `web`. -/
theorem other_error_recorded_first :
    (cMixed.resourceMap.lookup "web" = some ⟨"r1"⟩
      ∧ cMixed.resourceMap.lookup "db" = some ⟨"r1"⟩
      ∧ orderMixed.Perm cMixed.resourceMap.entries
      ∧ (deleteTask 2 cMixed "web" "r1").outcome
          = .returned (some (timeoutError cMixed "web" "r1"))
      ∧ (deleteTask 2 cMixed "db" "r1").outcome = .returned none)
    ∧ (cMixed.Remove 2 orderMixed).outcome = .returned (some (.api "permission denied"))
    ∧ ¬ textContains (GoError.api "permission denied").Error "web"
    ∧ ¬ ∃ err, (cMixed.Remove 2 orderMixed).outcome = .returned (some err)
          ∧ textContains err.Error "web" := by
  refine ⟨by decide, by decide, by decide, ?_⟩
  rintro ⟨err, herr, htext⟩
  have h : (cMixed.Remove 2 orderMixed).outcome = .returned (some (.api "permission denied")) := by
    decide
  rw [h] at herr
  simp only [Outcome.returned.injEq, Option.some.injEq] at herr
  subst herr
  revert htext
  decide

/-! ## Claims about `List` -/

/-- C7: `List(false)` is a pure read of the cache: it returns the identifiers
of the cache (each once) in ascending order, makes no API call, leaves the
plugin unchanged, and a second call returns the same. -/
theorem list_cached_is_pure_read (c : ComputeInstanceGroupsRegion) :
    ∃ res, c.List false = .ok res
      ∧ res.slice.Sorted (· < ·)
      ∧ res.slice.Perm c.resourceMap.keys
      ∧ (∀ k, k ∈ res.slice ↔ k ∈ c.resourceMap)
      ∧ res.calls = []
      ∧ res.c = c
      ∧ res.c.List false = .ok res :=
  ⟨⟨c.ToSlice, c, []⟩, rfl, sortedSyncMapKeys_sorted c.resourceMap,
    sortedSyncMapKeys_perm c.resourceMap, mem_sortedSyncMapKeys c.resourceMap, rfl, rfl, rfl⟩

/-- C8: when every configured region is listed successfully, `List(true)`
leaves in the cache exactly the identifiers listed in at least one configured
region, whatever the cache held before, and returns those identifiers in
strictly ascending order (sorted, no duplicates), after one listing call per
configured region. -/
theorem list_refresh_rebuilds (c : ComputeInstanceGroupsRegion) (items : String → StringSlice)
    (hlist : ∀ r ∈ c.base.config.Regions,
      c.serviceClient.list c.base.config.Project r = .ok (items r)) :
    ∃ res, c.List true = .ok res
      ∧ (∀ k, k ∈ res.c.resourceMap ↔ ∃ r ∈ c.base.config.Regions, k ∈ items r)
      ∧ res.slice.Sorted (· < ·)
      ∧ (∀ k, k ∈ res.slice ↔ ∃ r ∈ c.base.config.Regions, k ∈ items r)
      ∧ res.calls = c.base.config.Regions.map (ApiCall.list c.base.config.Project) := by
  refine ⟨_, list_refresh_ok c items hlist, fun k => ?_, sortedSyncMapKeys_sorted _,
    fun k => ?_, rfl⟩
  · simp [mem_storeAll]
  · simp [mem_sortedSyncMapKeys, mem_storeAll]

/-- Witness of `list_refresh_rebuilds`: the cache of `cStale` holds `a0`, which
the provider does not list. -/
theorem list_refresh_rebuilds_witness :
    ∃ res, cStale.List true = .ok res
      ∧ (∀ k, k ∈ res.c.resourceMap ↔ ∃ r ∈ cStale.base.config.Regions, k ∈ itemsDone r)
      ∧ res.slice.Sorted (· < ·)
      ∧ (∀ k, k ∈ res.slice ↔ ∃ r ∈ cStale.base.config.Regions, k ∈ itemsDone r)
      ∧ res.calls = cStale.base.config.Regions.map (ApiCall.list cStale.base.config.Project) :=
  list_refresh_rebuilds cStale itemsDone (fun _ _ => rfl)

theorem flatMap_single_key {α : Type} (f : Entry → α) (k : String)
    (p : DefaultResourceProperties) :
    ∀ l : Entries, l.NodupKeys → (⟨k, p⟩ : Entry) ∈ l →
      l.flatMap (fun e => if e.1 = k then [f e] else []) = [f ⟨k, p⟩] := by
  intro l
  induction l with
  | nil => intro _ h; simp at h
  | cons a rest ih =>
    intro hnd hmem
    rw [List.nodupKeys_cons] at hnd
    have hkeys : ∀ e ∈ rest, e.1 ∈ rest.keys := fun e he => List.mem_keys.2 ⟨e.2, he⟩
    rw [List.flatMap_cons]
    rcases List.mem_cons.1 hmem with rfl | hmem'
    · have hrest : rest.flatMap (fun e => if e.1 = k then [f e] else []) = [] := by
        rw [List.flatMap_eq_nil_iff]
        intro e he
        have hne : e.1 ≠ k := fun h => hnd.1 (h ▸ hkeys e he)
        simp [hne]
      simp [hrest]
    · have hne : a.1 ≠ k := fun h => hnd.1 (h ▸ hkeys ⟨k, p⟩ hmem')
      simp [hne, ih hnd.2 hmem']

theorem filter_deleteCalls (fuel : Nat) (c : ComputeInstanceGroupsRegion) (k : String)
    (e : Entry) :
    (deleteCalls fuel c e.1 e.2.region).filter (isDeleteOf k)
      = if e.1 = k then [ApiCall.delete c.base.config.Project e.2.region e.1] else [] := by
  unfold deleteCalls
  have hget : ∀ (n : Nat) (operation : String),
      (List.replicate n (ApiCall.get c.base.config.Project e.2.region operation)).filter
        (isDeleteOf k) = [] := by
    intro n operation
    rw [List.filter_eq_nil_iff]
    intro x hx
    rw [List.eq_of_mem_replicate hx]
    simp [isDeleteOf]
  cases c.serviceClient.delete c.base.config.Project e.2.region e.1 with
  | error err => by_cases h : e.1 = k <;> simp [List.filter_cons, isDeleteOf, h]
  | ok operation => by_cases h : e.1 = k <;> simp [List.filter_cons, isDeleteOf, h, hget]

/-- C10: the cache is keyed by the identifier alone.  When every configured
region is listed successfully and `r` is the last configured region whose
listing contains the name `k`, then after `List(true)` the cache holds one
entry for `k`, with region `r`, and `Remove` submits exactly one delete for
`k`, in region `r`. -/
theorem duplicate_name_last_region_wins (c : ComputeInstanceGroupsRegion)
    (items : String → StringSlice)
    (hlist : ∀ r ∈ c.base.config.Regions,
      c.serviceClient.list c.base.config.Project r = .ok (items r))
    (k r : String) (pre post : StringSlice)
    (hregions : c.base.config.Regions = pre ++ r :: post)
    (hk : k ∈ items r) (hpost : ∀ r' ∈ post, k ∉ items r') :
    ∃ res, c.List true = .ok res
      ∧ res.c.resourceMap.lookup k = some ⟨r⟩
      ∧ res.c.resourceMap.keys.count k = 1
      ∧ ∀ fuel order, order.Perm res.c.resourceMap.entries →
          (res.c.Remove fuel order).calls.filter (isDeleteOf k)
            = [ApiCall.delete c.base.config.Project r k] := by
  have hlook : (storeAll items c.base.config.Regions ∅).lookup k = some ⟨r⟩ := by
    rw [hregions]
    exact lookup_storeAll_last items k r pre post ∅ hk hpost
  refine ⟨_, list_refresh_ok c items hlist, hlook, ?_, fun fuel order hperm => ?_⟩
  · exact List.count_eq_one_of_mem (AList.keys_nodup _)
      (AList.mem_keys.1 (AList.lookup_isSome.1 (by rw [hlook]; rfl)))
  · rw [remove_calls, List.filter_flatMap]
    simp only [filter_deleteCalls]
    have hmem : (⟨k, ⟨r⟩⟩ : Entry) ∈ order :=
      hperm.mem_iff.2 (AList.mem_lookup_iff.1 (by rw [hlook]; rfl))
    have hnd : order.NodupKeys :=
      (List.perm_nodupKeys hperm).2 (AList.nodupKeys _)
    exact flatMap_single_key
      (fun e : Entry => ApiCall.delete c.base.config.Project e.2.region e.1) k ⟨r⟩ order hnd hmem

/-- Witness of `duplicate_name_last_region_wins`: `g` is listed in `r1` and in
`r2`; the cache keeps `r2`. -/
theorem duplicate_name_last_region_wins_witness :
    ∃ res, cDup.List true = .ok res
      ∧ res.c.resourceMap.lookup "g" = some ⟨"r2"⟩
      ∧ res.c.resourceMap.keys.count "g" = 1
      ∧ ∀ fuel order, order.Perm res.c.resourceMap.entries →
          (res.c.Remove fuel order).calls.filter (isDeleteOf "g")
            = [ApiCall.delete cDup.base.config.Project "r2" "g"] :=
  duplicate_name_last_region_wins cDup itemsDup (fun _ _ => rfl) "g" "r2" ["r1"] [] rfl
    (by decide) (by decide)

/-- C5 (amended): take a cache produced by `List(true)` when no instance name
is listed in two different configured regions.  If `Remove` returns nil and
afterwards the provider lists nothing new and no longer lists an instance
whose delete was submitted and whose deletion returned nil (so whose operation
reported `"DONE"`), then `List(true)` called next returns the empty sequence. -/
theorem cache_drain (c : ComputeInstanceGroupsRegion) (items : String → StringSlice)
    (hlist : ∀ r ∈ c.base.config.Regions,
      c.serviceClient.list c.base.config.Project r = .ok (items r))
    (huniq : ∀ r₁ ∈ c.base.config.Regions, ∀ r₂ ∈ c.base.config.Regions, ∀ k,
      k ∈ items r₁ → k ∈ items r₂ → r₁ = r₂)
    (res : ListResult) (hres : c.List true = .ok res)
    (fuel : Nat) (order : Entries) (hperm : order.Perm res.c.resourceMap.entries)
    (hnil : (res.c.Remove fuel order).outcome = .returned none)
    (svc' : ComputeService) (items' : String → StringSlice)
    (hlist' : ∀ r ∈ c.base.config.Regions, svc'.list c.base.config.Project r = .ok (items' r))
    (hnew : ∀ r ∈ c.base.config.Regions, ∀ k ∈ items' r, k ∈ items r)
    (hgone : ∀ r k, ApiCall.delete c.base.config.Project r k ∈ (res.c.Remove fuel order).calls →
      (deleteTask fuel res.c k r).outcome = .returned none → k ∉ items' r) :
    ∃ res', ({ (res.c.Remove fuel order).c with serviceClient := svc' }).List true = .ok res'
      ∧ res'.slice = [] ∧ res'.c.resourceMap.keys = [] := by
  have hres' := list_refresh_ok c items hlist
  rw [hres] at hres'
  injection hres' with hres'
  subst hres'
  have hempty : ∀ k, k ∉ storeAll items' c.base.config.Regions ∅ := by
    intro k hkmem
    rcases (mem_storeAll items' k _ _).1 hkmem with h | ⟨r, hr, hkr⟩
    · exact AList.not_mem_empty k h
    · have hkc : k ∈ storeAll items c.base.config.Regions ∅ :=
        (mem_storeAll items k _ _).2 (Or.inr ⟨r, hr, hnew r hr k hkr⟩)
      obtain ⟨p, hp⟩ := Option.isSome_iff_exists.1 (AList.lookup_isSome.2 hkc)
      have hreg : p.region = r := by
        rcases lookup_storeAll_some items k _ _ p hp with ⟨h₁, h₂⟩ | h
        · exact huniq _ h₁ _ hr k h₂ (hnew r hr k hkr)
        · simp at h
      have hmem : (⟨k, p⟩ : Entry) ∈ order :=
        hperm.mem_iff.2 (AList.mem_lookup_iff.1 (by rw [hp]; rfl))
      have hdone := (remove_outcome_nil_iff fuel _ order).1 hnil ⟨k, p⟩ hmem
      have hcall : ApiCall.delete c.base.config.Project p.region k
          ∈ (ComputeInstanceGroupsRegion.Remove fuel
              { c with resourceMap := storeAll items c.base.config.Regions ∅ } order).calls := by
        rw [remove_calls]
        exact List.mem_flatMap.2 ⟨⟨k, p⟩, hmem, by simp [deleteCalls]⟩
      rw [hreg] at hcall
      simp only at hdone
      rw [hreg] at hdone
      exact hgone r k hcall hdone hkr
  refine ⟨_, list_refresh_ok _ items' hlist', ?_, ?_⟩
  · apply List.eq_nil_iff_forall_not_mem.2
    intro k hk
    exact hempty k ((mem_sortedSyncMapKeys _ k).1 hk)
  · apply List.eq_nil_iff_forall_not_mem.2
    intro k hk
    exact hempty k (AList.mem_keys.2 hk)

/-- Witness of `cache_drain`: `a1` and `a2` in region `r1` are listed, deleted
with completion on the first poll, and no longer listed. -/
theorem cache_drain_witness :
    ∃ res', ({ (cFreshListed.Remove 1 cFreshListed.resourceMap.entries).c with
        serviceClient := svcRunning }).List true = .ok res'
      ∧ res'.slice = [] ∧ res'.c.resourceMap.keys = [] :=
  cache_drain cFresh itemsDone (fun _ _ => rfl) (by decide)
    ⟨SortedSyncMapKeys cacheA12, cFreshListed, [ApiCall.list "p" "r1"]⟩ rfl
    1 cFreshListed.resourceMap.entries (List.Perm.refl _) (by decide)
    svcRunning itemsNone (fun _ _ => rfl) (fun _ _ _ hk => by simp [itemsNone] at hk)
    (fun _ _ _ _ => by simp [itemsNone])

/-- C5 as stated fails when a name is listed in two configured regions: `g`
exists in `r1` and `r2`, the cache built by `List(true)` is `g ↦ r2`, `Remove`
deletes `g` in `r2` only and returns nil; the provider then lists nothing new
and no longer lists `g` in `r2`, yet `List(true)` returns `g` (still in `r1`). -/
theorem cache_drain_duplicate_name :
    cDup.List true
      = .ok ⟨SortedSyncMapKeys cacheDup, cDupListed, [ApiCall.list "p" "r1", ApiCall.list "p" "r2"]⟩
    ∧ cDupListed.resourceMap.entries = [⟨"g", ⟨"r2"⟩⟩]
    ∧ (cDupListed.Remove 1 cDupListed.resourceMap.entries).outcome = .returned none
    ∧ (cDupListed.Remove 1 cDupListed.resourceMap.entries).calls
        = [ApiCall.delete "p" "r2" "g", ApiCall.get "p" "r2" "operation-g"]
    ∧ (cDupListed.Remove 1 cDupListed.resourceMap.entries).c.resourceMap.entries = []
    ∧ (∀ r ∈ cDup.base.config.Regions, svcDupAfter.list "p" r = .ok (itemsDupAfter r))
    ∧ (∀ r ∈ cDup.base.config.Regions, ∀ k ∈ itemsDupAfter r, k ∈ itemsDup r)
    ∧ "g" ∉ itemsDupAfter "r2"
    ∧ ∃ res', ({ (cDupListed.Remove 1 cDupListed.resourceMap.entries).c with
          serviceClient := svcDupAfter }).List true = .ok res'
        ∧ res'.slice = ["g"] ∧ res'.c.resourceMap.entries = [⟨"g", ⟨"r1"⟩⟩] := by
  refine ⟨rfl, by decide, by decide, by decide, by decide, fun _ _ => rfl, by decide, by decide,
    ⟨_, rfl, by decide, by decide⟩⟩

end GcpNuke
